import Mathlib

/-!
The go-twinkly client: movie encoding and the login / upload protocol

A shallow embedding of `movie.go`, `login.go`, `client.go`, `option.go` and
`consts.go`.

Modelling conventions.

* A Go `uint8` is a `Fin 256`.  The length of a slice is a `Nat`.  Go `int` is
  32 or 64 bits wide, depending on the platform (`Arch`): the buffer size and
  the offsets that `Marshal` computes are reduced modulo `2 ^ 32` or `2 ^ 64`,
  the residues above the largest `int` standing for the negative values, and
  `make` and the index expressions panic as the Go runtime does.
  Integers decoded from JSON (`Code`, `frames_number`) are `Int`.
* A Go function returning `(T, error)` that may also stop with a run-time
  panic is a function into `Result T`, with the three outcomes `ok`, `error`
  and `panic`.
* A value of the interface type `Led` is `nil` or holds one of the two
  implementations of the package, `RgbLed` and `RgbwLed`.  Calling a method on
  the `nil` interface value panics.
* An error is the format string given to `errors.New` / `fmt.Errorf` together
  with its arguments.
* One HTTP round trip is resolved by a `RoundTrip` value supplied by the
  environment (the request could not be built, could not be sent, the answer
  could not be decoded, or the decoded answer).  Functions that talk to the
  device return, next to their result, the list of requests handed to the HTTP
  client, in order.
-/

namespace Twinkly

/-! ## Errors, panics, results -/

/-- Go `uint8`. -/
abbrev Byte := Fin 256

/-- An argument of a format string. -/
inductive Arg where
  | int (n : Int)
  | str (s : String)
  deriving DecidableEq, Repr

/-- A Go `error` value: `errors.New text`, `fmt.Errorf format args...`, or
`fmt.Errorf (format ++ ": %w") cause`.  Errors coming from outside the package
(network, JSON, random source) are `external`. -/
inductive Error where
  | new (text : String)
  | errorf (format : String) (args : List Arg)
  | wrap (format : String) (cause : Error)
  | external (text : String)
  deriving DecidableEq, Repr

/-- Run-time panics of the Go runtime that the modelled code can raise. -/
inductive Panic where
  | nilDereference
  | indexOutOfRange (index length : Nat)
  | divideByZero
  | makesliceLen
  deriving DecidableEq, Repr

/-- Outcome of a Go call: a value, a returned `error`, or a panic. -/
inductive Result (α : Type) where
  | ok (a : α)
  | error (e : Error)
  | panic (p : Panic)
  deriving DecidableEq, Repr

/-- Sequencing of `Result`: the first error or panic ends the computation. -/
def Result.bind {α β : Type} (r : Result α) (f : α → Result β) : Result β :=
  match r with
  | .ok a => f a
  | .error e => .error e
  | .panic p => .panic p

/-! ## The platform: Go `int` and `make` -/

/-- Width of Go `int`: 32 or 64 bits. -/
inductive WordSize where
  | w32
  | w64
  deriving DecidableEq, Repr

/-- The platform the package is compiled for: the width of `int`, and the
largest length that `make([]byte, n)` can allocate (the constant `maxAlloc` of
the Go runtime, or less where memory is short). -/
structure Arch where
  word : WordSize
  maxAlloc : Nat
  deriving DecidableEq, Repr

/-- Two to the power of the width of `int`. -/
def Arch.modulus (a : Arch) : Nat :=
  match a.word with
  | .w32 => 4294967296
  | .w64 => 18446744073709551616

/-- The largest `int`. -/
def Arch.maxInt (a : Arch) : Nat :=
  match a.word with
  | .w32 => 2147483647
  | .w64 => 9223372036854775807

/-- The `int` that a sum of products of non-negative ints with exact value `x`
evaluates to, as a residue modulo `2 ^ width`; a residue above `maxInt` is a
negative `int`. -/
def Arch.wrap (a : Arch) (x : Nat) : Nat := x % a.modulus

/-- The call `make([]byte, n)` for the `int` residue `n`: it panics when `n` is
negative or beyond what can be allocated, and returns `n` zero bytes
otherwise. -/
def makeslice (a : Arch) (n : Nat) : Result (List Byte) :=
  if a.maxInt < n ∨ a.maxAlloc < n then .panic .makesliceLen
  else .ok (List.replicate n 0)

/-- A 64-bit platform, `maxAlloc = 2 ^ 48`. -/
def amd64 : Arch := { word := .w64, maxAlloc := 281474976710656 }

/-- A 32-bit platform, `maxAlloc = 2 ^ 32 - 1`. -/
def i386 : Arch := { word := .w32, maxAlloc := 4294967295 }

/-! ## consts.go -/

/-- Go `type Code int`. -/
abbrev Code := Int

def CodeOk : Code := 1000
def CodeError : Code := 1001
def CodeInvalidArgumentValue : Code := 1101
def CodeInvalidArgumentKey : Code := 1105
def CodeDuplicateUniqueId : Code := 1106

/-! ## movie.go: LEDs, frames, movies -/

structure RgbLed where
  red : Byte
  green : Byte
  blue : Byte
  deriving DecidableEq, Repr

def RgbLed.Red (l : RgbLed) : Byte := l.red
def RgbLed.Green (l : RgbLed) : Byte := l.green
def RgbLed.Blue (l : RgbLed) : Byte := l.blue
def RgbLed.White (_ : RgbLed) : Byte := 0
def RgbLed.HasWhite (_ : RgbLed) : Bool := false

/-- Go `RgbwLed` embeds `RgbLed`; `Red`, `Green`, `Blue` are promoted from the
embedded value, `White` and `HasWhite` are redefined. -/
structure RgbwLed where
  RgbLed : RgbLed
  white : Byte
  deriving DecidableEq, Repr

def RgbwLed.Red (l : RgbwLed) : Byte := l.RgbLed.Red
def RgbwLed.Green (l : RgbwLed) : Byte := l.RgbLed.Green
def RgbwLed.Blue (l : RgbwLed) : Byte := l.RgbLed.Blue
def RgbwLed.White (l : RgbwLed) : Byte := l.white
def RgbwLed.HasWhite (_ : RgbwLed) : Bool := true

def NewRgbLed (red green blue : Byte) : RgbLed :=
  { red := red, green := green, blue := blue }

def NewRgbwLed (red green blue white : Byte) : RgbwLed :=
  { RgbLed := { red := red, green := green, blue := blue }, white := white }

/-- A value of the interface type `Led`. -/
inductive Led where
  | nil
  | rgb (l : RgbLed)
  | rgbw (l : RgbwLed)
  deriving DecidableEq, Repr

/-- Interface method call `led.Red()`. -/
def Led.Red : Led → Result Byte
  | .nil => .panic .nilDereference
  | .rgb l => .ok l.Red
  | .rgbw l => .ok l.Red

/-- Interface method call `led.Green()`. -/
def Led.Green : Led → Result Byte
  | .nil => .panic .nilDereference
  | .rgb l => .ok l.Green
  | .rgbw l => .ok l.Green

/-- Interface method call `led.Blue()`. -/
def Led.Blue : Led → Result Byte
  | .nil => .panic .nilDereference
  | .rgb l => .ok l.Blue
  | .rgbw l => .ok l.Blue

/-- Interface method call `led.White()`. -/
def Led.White : Led → Result Byte
  | .nil => .panic .nilDereference
  | .rgb l => .ok l.White
  | .rgbw l => .ok l.White

/-- Interface method call `led.HasWhite()`. -/
def Led.HasWhite : Led → Result Bool
  | .nil => .panic .nilDereference
  | .rgb l => .ok l.HasWhite
  | .rgbw l => .ok l.HasWhite

structure Frame where
  Leds : List Led
  deriving DecidableEq, Repr

structure LedMovie where
  Frames : List Frame
  deriving DecidableEq, Repr

/-! ### The errors of `Marshal` -/

def errNoFrames : Error := .new "movie must have at least one frame"
def errEmptyFrame (i : Nat) : Error := .errorf "frame %d has no LEDs" [.int i]
def errLedCount : Error := .new "inconsistent LED count in movie frames"
def errWhiteMix : Error := .new "inconsistent white LED availability in movie leds"

/-! ### `LedMovie.Marshal` -/

/-- The two pointer variables of the validation loop; `none` is the nil
pointer. -/
structure Prev where
  prevHasWhite : Option Bool
  prevLedCount : Option Nat
  deriving DecidableEq, Repr

/-- The inner validation loop `for _, led := range frame.Leds`. -/
def checkLeds : List Led → Option Bool → Result (Option Bool)
  | [], prevHasWhite => .ok prevHasWhite
  | led :: rest, prevHasWhite =>
    match prevHasWhite with
    | none =>
      (led.HasWhite).bind fun hw => checkLeds rest (some hw)
    | some p =>
      (led.HasWhite).bind fun hw =>
        if p != hw then .error errWhiteMix else checkLeds rest (some p)

/-- The `switch prevLedCount` of the validation loop. -/
def checkCount (n : Nat) : Option Nat → Result (Option Nat)
  | none => .ok (some n)
  | some c => if c != n then .error errLedCount else .ok (some c)

/-- The outer validation loop `for i, frame := range m.Frames`, started at
index `i`. -/
def checkFrames : Nat → List Frame → Prev → Result Prev
  | _, [], s => .ok s
  | i, frame :: rest, s =>
    if frame.Leds.length == 0 then .error (errEmptyFrame i)
    else
      (checkCount frame.Leds.length s.prevLedCount).bind fun c =>
      (checkLeds frame.Leds s.prevHasWhite).bind fun w =>
      checkFrames (i + 1) rest { prevHasWhite := w, prevLedCount := c }

/-- The assignment `buf[idx] = v` for the `int` residue `idx`; it panics when
`idx` is negative or not below `len(buf)`. -/
def store (a : Arch) (buf : List Byte) (idx : Nat) (v : Byte) : Result (List Byte) :=
  if idx ≤ a.maxInt ∧ idx < buf.length then .ok (buf.set idx v)
  else .panic (.indexOutOfRange idx buf.length)

/-- The inner fill loop `for j, led := range frame.Leds` of frame `i`, whose
length is `n`, started at index `j`. -/
def fillLeds (a : Arch) (hasWhite : Bool) (ledSize i n : Nat) :
    Nat → List Led → List Byte → Result (List Byte)
  | _, [], buf => .ok buf
  | j, led :: rest, buf =>
    let offset := a.wrap (i * n * ledSize + j * ledSize)
    (led.Red).bind fun r => (store a buf offset r).bind fun buf =>
    (led.Green).bind fun g => (store a buf (a.wrap (offset + 1)) g).bind fun buf =>
    (led.Blue).bind fun b => (store a buf (a.wrap (offset + 2)) b).bind fun buf =>
    (if hasWhite then
      (led.White).bind fun w => store a buf (a.wrap (offset + 3)) w
     else .ok buf).bind fun buf =>
    fillLeds a hasWhite ledSize i n (j + 1) rest buf

/-- The outer fill loop `for i, frame := range m.Frames`, started at index
`i`. -/
def fillFrames (a : Arch) (hasWhite : Bool) (ledSize : Nat) :
    Nat → List Frame → List Byte → Result (List Byte)
  | _, [], buf => .ok buf
  | i, frame :: rest, buf =>
    (fillLeds a hasWhite ledSize i frame.Leds.length 0 frame.Leds buf).bind fun buf =>
    fillFrames a hasWhite ledSize (i + 1) rest buf

/-- The method `LedMovie.Marshal` of movie.go, on the platform `a`. -/
def LedMovie.Marshal (m : LedMovie) (a : Arch) : Result (List Byte) :=
  if m.Frames.length == 0 then .error errNoFrames
  else
    (checkFrames 0 m.Frames { prevHasWhite := none, prevLedCount := none }).bind fun s =>
    match s.prevHasWhite with
    | none => .panic .nilDereference
    | some hasWhite =>
      let ledSize := if hasWhite then 4 else 3
      match m.Frames with
      | [] => .panic (.indexOutOfRange 0 0)
      | first :: _ =>
        (makeslice a (a.wrap (m.Frames.length * first.Leds.length * ledSize))).bind fun buf =>
        fillFrames a hasWhite ledSize 0 m.Frames buf

/-! ## option.go -/

structure options where
  withHost : String
  withContentType : String
  deriving DecidableEq, Repr

def getDefaultOptions : options :=
  { withHost := "", withContentType := "" }

/-- Go `type Option func(*options) error`: the function updates the options in
place and returns an error or nil. -/
abbrev OptionFn := options → options × Option Error

/-- The loop of `getOpts`; a `none` entry is a nil `Option`, which is skipped. -/
def getOptsLoop : List (Option OptionFn) → options → options × Option Error
  | [], opts => (opts, none)
  | o :: rest, opts =>
    match o with
    | none => getOptsLoop rest opts
    | some f =>
      match f opts with
      | (opts1, some err) => (opts1, some err)
      | (opts1, none) => getOptsLoop rest opts1

def getOpts (opt : List (Option OptionFn)) : options × Option Error :=
  getOptsLoop opt getDefaultOptions

def WithHost (w : String) : OptionFn :=
  fun o => ({ o with withHost := w }, none)

def WithContentType (w : String) : OptionFn :=
  fun o => ({ o with withContentType := w }, none)

/-! ## client.go -/

structure GenericCodeResponse where
  Code : Code
  deriving DecidableEq, Repr

structure Client where
  validatedHost : String
  authenticationToken : String
  deriving DecidableEq, Repr

def Client.AuthenticationToken (c : Client) : String := c.authenticationToken
def Client.ValidatedHost (c : Client) : String := c.validatedHost

structure LoginRequest where
  Challenge : String
  deriving DecidableEq, Repr

structure LoginResponse where
  AuthenticationToken : String
  ChallengeResponse : String
  Code : Code
  deriving DecidableEq, Repr

structure VerifyRequest where
  ChallengeResponse : String
  deriving DecidableEq, Repr

structure VerifyResponse where
  Code : Code
  deriving DecidableEq, Repr

structure UploadFullMovieResponse where
  Code : Code
  FramesNumber : Int
  deriving DecidableEq, Repr

structure SetLedMovieConfigRequest where
  FrameDelay : Int
  LedsNumber : Int
  FramesNumber : Int
  deriving DecidableEq, Repr

structure Movie where
  Id : Int
  Name : String
  UniqueId : String
  DescriptorType : String
  LedsPerFrame : Int
  FramesNumber : Int
  Fps : Int
  deriving DecidableEq, Repr

/-- The values passed as `reqBody any` by the package. -/
inductive Payload where
  | bytes (b : List Byte)
  | login (r : LoginRequest)
  | verify (r : VerifyRequest)
  | movieConfig (r : SetLedMovieConfigRequest)
  | movie (m : Movie)
  deriving DecidableEq, Repr

/-- Go `%T` of a payload. -/
def Payload.typeName : Payload → String
  | .bytes _ => "[]uint8"
  | .login _ => "*twinkly.LoginRequest"
  | .verify _ => "*twinkly.VerifyRequest"
  | .movieConfig _ => "*twinkly.SetLedMovieConfigRequest"
  | .movie _ => "twinkly.Movie"

/-- Body of an HTTP request: absent, the raw bytes, or the JSON encoding of a
payload. -/
inductive HttpBody where
  | empty
  | raw (b : List Byte)
  | json (p : Payload)
  deriving DecidableEq, Repr

/-- An HTTP request handed to `http.DefaultClient.Do`; the URL is
`http://host/path`. -/
structure HttpRequest where
  method : String
  host : String
  path : String
  authToken : Option String
  contentType : Option String
  body : HttpBody
  deriving DecidableEq, Repr

/-- What the environment makes of one round trip: `http.NewRequest` fails, `Do`
fails, decoding the answer fails, or the answer is decoded into the response
value. -/
inductive RoundTrip (ρ : Type) where
  | createFailed (e : Error)
  | sendFailed (e : Error)
  | decodeFailed (e : Error)
  | decoded (r : ρ)
  deriving DecidableEq, Repr

/-- The method `Client.doRequest` of client.go.  For the payloads of the
package `json.Marshal` does not fail. -/
def Client.doRequest {ρ : Type} (c : Client) (method path : String)
    (reqBody : Option Payload) (opt : List (Option OptionFn)) (net : RoundTrip ρ) :
    Result ρ × List HttpRequest :=
  match getOpts opt with
  | (_, some err) => (.error (.wrap "error getting options: %w" err), [])
  | (opts, none) =>
    let reader : Result HttpBody :=
      match reqBody with
      | none => .ok .empty
      | some body =>
        if opts.withContentType = "application/octet-stream" then
          match body with
          | .bytes b => .ok (.raw b)
          | other =>
            .error (.errorf "error casting request body to []byte, type is %T"
              [.str other.typeName])
        else .ok (.json body)
    match reader with
    | .error e => (.error e, [])
    | .panic p => (.panic p, [])
    | .ok body =>
      let httpReq : HttpRequest :=
        { method := method, host := c.validatedHost, path := path,
          authToken :=
            if c.authenticationToken ≠ "" then some c.authenticationToken else none,
          contentType :=
            if opts.withContentType ≠ "" then some opts.withContentType else none,
          body := body }
      match net with
      | .createFailed e => (.error (.wrap "error creating request: %w" e), [])
      | .sendFailed e => (.error (.wrap "error sending request: %w" e), [httpReq])
      | .decodeFailed e => (.error (.wrap "error decoding response: %w" e), [httpReq])
      | .decoded r => (.ok r, [httpReq])

/-! ## login.go -/

/-- The function `Login` of login.go.  `rand` is the outcome of
`uuid.GenerateRandomBytes(32)`, `b64` is `base64.StdEncoding.EncodeToString`,
`loginNet` and `verifyNet` resolve the two round trips. -/
def Login (opt : List (Option OptionFn)) (rand : Except Error (List Byte))
    (b64 : List Byte → String) (loginNet : RoundTrip LoginResponse)
    (verifyNet : RoundTrip VerifyResponse) : Result Client × List HttpRequest :=
  match getOpts opt with
  | (_, some err) => (.error (.wrap "error getting options: %w" err), [])
  | (opts, none) =>
    if opts.withHost = "" then (.error (.errorf "host is required" []), [])
    else
      match rand with
      | .error e => (.error (.wrap "error creating challenge: %w" e), [])
      | .ok challenge =>
        let loginReq : LoginRequest := { Challenge := b64 challenge }
        let httpReq : HttpRequest :=
          { method := "POST", host := opts.withHost, path := "/xled/v1/login",
            authToken := none, contentType := none, body := .json (.login loginReq) }
        match loginNet with
        | .createFailed e => (.error (.wrap "error creating login request: %w" e), [])
        | .sendFailed e => (.error (.wrap "error sending login request: %w" e), [httpReq])
        | .decodeFailed e =>
          (.error (.wrap "error decoding login response: %w" e), [httpReq])
        | .decoded loginResp =>
          if loginResp.AuthenticationToken = "" then
            (.error (.errorf "no authentication token received" []), [httpReq])
          else if loginResp.ChallengeResponse = "" then
            (.error (.errorf "no challenge response received" []), [httpReq])
          else if loginResp.Code ≠ CodeOk then
            (.error (.errorf "error code received during login: %d" [.int loginResp.Code]),
              [httpReq])
          else
            let client : Client :=
              { validatedHost := opts.withHost,
                authenticationToken := loginResp.AuthenticationToken }
            let verifyReq : VerifyRequest :=
              { ChallengeResponse := loginResp.ChallengeResponse }
            match client.doRequest "POST" "/xled/v1/verify" (some (.verify verifyReq)) []
                verifyNet with
            | (.error err, sent) =>
              (.error (.wrap "error during verify: %w" err), httpReq :: sent)
            | (.panic p, sent) => (.panic p, httpReq :: sent)
            | (.ok verifyResp, sent) =>
              if verifyResp.Code ≠ CodeOk then
                (.error (.errorf "error code received during verify: %d"
                  [.int verifyResp.Code]), httpReq :: sent)
              else (.ok client, httpReq :: sent)

/-! ## movie.go: talking to the device -/

/-- The method `Client.UploadFullMovie` of movie.go.  The division
`1000 / len(m.Frames)` panics on a zero divisor and `m.Frames[0]` panics on an
empty slice. -/
def Client.UploadFullMovie (c : Client) (a : Arch) (m : LedMovie)
    (uploadNet : RoundTrip UploadFullMovieResponse)
    (configNet : RoundTrip GenericCodeResponse) : Result Unit × List HttpRequest :=
  match m.Marshal a with
  | .error err => (.error (.wrap "error marshalling movie: %w" err), [])
  | .panic p => (.panic p, [])
  | .ok buf =>
    match c.doRequest "POST" "/xled/v1/led/movie/full" (some (.bytes buf))
        [some (WithContentType "application/octet-stream")] uploadNet with
    | (.error err, sent) => (.error (.wrap "error uploading full movie: %w" err), sent)
    | (.panic p, sent) => (.panic p, sent)
    | (.ok resp, sent) =>
      if resp.FramesNumber ≠ (m.Frames.length : Int) then
        (.error (.errorf "unexpected number of frames in response: %d, input frames: %d"
          [.int resp.FramesNumber, .int m.Frames.length]), sent)
      else if m.Frames.length = 0 then (.panic .divideByZero, sent)
      else
        match m.Frames with
        | [] => (.panic (.indexOutOfRange 0 0), sent)
        | first :: _ =>
          let req : SetLedMovieConfigRequest :=
            { FrameDelay := ((1000 / m.Frames.length : Nat) : Int),
              LedsNumber := first.Leds.length,
              FramesNumber := m.Frames.length }
          match c.doRequest "POST" "/xled/v1/led/movie/config" (some (.movieConfig req)) []
              configNet with
          | (.error err, sent2) =>
            (.error (.wrap "error configuring movie: %w" err), sent ++ sent2)
          | (.panic p, sent2) => (.panic p, sent ++ sent2)
          | (.ok configResp, sent2) =>
            if configResp.Code ≠ CodeOk then
              (.error (.errorf "error code configuring movie: %v" [.int configResp.Code]),
                sent ++ sent2)
            else (.ok (), sent ++ sent2)

/-- The method `Client.CreateMovie` of movie.go.  The second round trip decodes
into the response variable of the first; `fullNet` gives that variable after
decoding. -/
def Client.CreateMovie (c : Client) (a : Arch) (m : Movie) (l : LedMovie)
    (newNet : RoundTrip GenericCodeResponse)
    (fullNet : RoundTrip GenericCodeResponse) : Result Unit × List HttpRequest :=
  match l.Marshal a with
  | .error err => (.error (.wrap "error marshalling LED movie: %w" err), [])
  | .panic p => (.panic p, [])
  | .ok buf =>
    match c.doRequest "POST" "/xled/v1/movies/new" (some (.movie m)) [] newNet with
    | (.error err, sent) => (.error (.wrap "error creating movie entry: %w" err), sent)
    | (.panic p, sent) => (.panic p, sent)
    | (.ok resp, sent) =>
      if resp.Code = CodeDuplicateUniqueId then
        (.error (.errorf "movie with unique ID %q already exists" [.str m.UniqueId]), sent)
      else if resp.Code = CodeOk then
        match c.doRequest "POST" "/xled/v1/movies/full" (some (.bytes buf))
            [some (WithContentType "application/octet-stream")] fullNet with
        | (.error err, sent2) =>
          (.error (.wrap "error creating movie entry: %w" err), sent ++ sent2)
        | (.panic p, sent2) => (.panic p, sent ++ sent2)
        | (.ok resp2, sent2) =>
          if resp2.Code ≠ CodeOk then
            (.error (.errorf "error code creating movie entry: %v" [.int resp2.Code]),
              sent ++ sent2)
          else (.ok (), sent ++ sent2)
      else
        (.error (.errorf "error code creating movie entry: %v" [.int resp.Code]), sent)

/-! ## The wire format, as the specification words it -/

/-- Bytes per pixel: 3 for RGB, 4 for RGBW. -/
def pixelWidth (hasWhite : Bool) : Nat := if hasWhite then 4 else 3

/-- The bytes of one pixel in channel order red, green, blue, [white]. -/
def Led.wire (hasWhite : Bool) : Led → List Byte
  | .nil => []
  | .rgb l => if hasWhite then [l.Red, l.Green, l.Blue, l.White] else [l.Red, l.Green, l.Blue]
  | .rgbw l => if hasWhite then [l.Red, l.Green, l.Blue, l.White] else [l.Red, l.Green, l.Blue]

/-- The bytes of one frame: its pixels in order, nothing in between. -/
def Frame.wire (hasWhite : Bool) (f : Frame) : List Byte :=
  f.Leds.flatMap (Led.wire hasWhite)

/-- The flat buffer: frame by frame, pixel by pixel, nothing in between. -/
def wireFormat (hasWhite : Bool) (frames : List Frame) : List Byte :=
  frames.flatMap (Frame.wire hasWhite)

/-- Every pixel of `leds` reports `HasWhite = b`. -/
def AllWhite (b : Bool) (leds : List Led) : Prop :=
  ∀ l ∈ leds, l.HasWhite = .ok b

/-- Every frame has `n` pixels and every pixel reports `HasWhite = b`. -/
def Uniform (n : Nat) (b : Bool) (frames : List Frame) : Prop :=
  ∀ f ∈ frames, f.Leds.length = n ∧ AllWhite b f.Leds

instance (b : Bool) (leds : List Led) : Decidable (AllWhite b leds) :=
  inferInstanceAs (Decidable (∀ l ∈ leds, l.HasWhite = .ok b))

instance (n : Nat) (b : Bool) (frames : List Frame) : Decidable (Uniform n b frames) :=
  inferInstanceAs (Decidable (∀ f ∈ frames, f.Leds.length = n ∧ AllWhite b f.Leds))

/-- No pixel of the movie is the nil interface value. -/
def LedMovie.NoNilLed (m : LedMovie) : Prop :=
  ∀ f ∈ m.Frames, ∀ l ∈ f.Leds, l ≠ Led.nil

instance (m : LedMovie) : Decidable m.NoNilLed :=
  inferInstanceAs (Decidable (∀ f ∈ m.Frames, ∀ l ∈ f.Leds, l ≠ Led.nil))

/-- The movie has at least one frame, every frame has at least one pixel, all
frames have the same pixel count, all pixels report the same `HasWhite`. -/
def LedMovie.Valid (m : LedMovie) : Prop :=
  m.Frames ≠ [] ∧ (∀ f ∈ m.Frames, f.Leds ≠ []) ∧
  (∀ f ∈ m.Frames, ∀ g ∈ m.Frames, f.Leds.length = g.Leds.length) ∧
  (∃ b, ∀ f ∈ m.Frames, AllWhite b f.Leds)

/-- The pixel `j` of frame `i`, when there is one. -/
def LedMovie.led? (m : LedMovie) (i j : Nat) : Option Led :=
  (m.Frames[i]?).bind fun f => f.Leds[j]?

/-! ## Statements about the protocol functions -/

/-- The host is non-empty, both round trips delivered a response, the login
response has a non-empty token, a non-empty challenge-response and code 1000,
the verify response has code 1000, and `token` is the login response's
token. -/
def HandshakeOk (host : String) (loginNet : RoundTrip LoginResponse)
    (verifyNet : RoundTrip VerifyResponse) (token : String) : Prop :=
  host ≠ "" ∧ ∃ lr vr, loginNet = .decoded lr ∧ verifyNet = .decoded vr ∧
    lr.AuthenticationToken ≠ "" ∧ lr.ChallengeResponse ≠ "" ∧
    lr.Code = 1000 ∧ vr.Code = 1000 ∧ lr.AuthenticationToken = token

/-- The request that uploads `buf` to `/xled/v1/led/movie/full`. -/
def uploadRequest (c : Client) (buf : List Byte) : HttpRequest :=
  { method := "POST", host := c.validatedHost, path := "/xled/v1/led/movie/full",
    authToken := if c.authenticationToken ≠ "" then some c.authenticationToken else none,
    contentType := some "application/octet-stream", body := .raw buf }

/-- The movie-config request carrying `req`. -/
def configRequest (c : Client) (req : SetLedMovieConfigRequest) : HttpRequest :=
  { method := "POST", host := c.validatedHost, path := "/xled/v1/led/movie/config",
    authToken := if c.authenticationToken ≠ "" then some c.authenticationToken else none,
    contentType := none, body := .json (.movieConfig req) }

/-- A client used in the examples. -/
def exampleClient : Client := { validatedHost := "192.168.10.74", authenticationToken := "abc" }

/-- Movie metadata used in the examples. -/
def exampleMovie : Movie :=
  { Id := 0, Name := "Twankles", UniqueId := "F3712DC0", DescriptorType := "rgb_raw",
    LedsPerFrame := 3, FramesNumber := 1, Fps := 1 }

/-! ## Statements about `Marshal` and example movies -/

/-- The flag `*prevHasWhite` of a movie that passes validation: `HasWhite` of
the first pixel of the first frame. -/
def LedMovie.firstHasWhite (m : LedMovie) : Bool :=
  match m.Frames with
  | [] => false
  | first :: _ =>
    match first.Leds with
    | [] => false
    | l :: _ => l.HasWhite == .ok true

/-- The exact value of `len(m.Frames) * len(m.Frames[0].Leds) * ledSize`: the
number of bytes of the wire format of a valid movie. -/
def LedMovie.wireSize (m : LedMovie) : Nat :=
  match m.Frames with
  | [] => 0
  | first :: _ => m.Frames.length * first.Leds.length * pixelWidth m.firstHasWhite

/-- The buffer of the movie can be made on the platform: its size is an `int`
and `make` can allocate it. -/
def LedMovie.Fits (m : LedMovie) (a : Arch) : Prop :=
  m.wireSize ≤ a.maxInt ∧ m.wireSize ≤ a.maxAlloc

instance (m : LedMovie) (a : Arch) : Decidable (m.Fits a) :=
  inferInstanceAs (Decidable (m.wireSize ≤ a.maxInt ∧ m.wireSize ≤ a.maxAlloc))

/-- Validation calls `HasWhite` on a nil pixel before it meets a defect: pixel
`j` of frame `k` is nil, the frames before `k` all have `n` pixels reporting
`HasWhite = b`, frame `k` has `n` pixels too (when it is not the first), and
the pixels before `j` in frame `k` report `HasWhite = b`. -/
def LedMovie.NilReached (m : LedMovie) : Prop :=
  ∃ k j f n b, 0 < n ∧ m.Frames[k]? = some f ∧ f.Leds[j]? = some Led.nil ∧
    Uniform n b (m.Frames.take k) ∧ (k = 0 ∨ f.Leds.length = n) ∧
    AllWhite b (f.Leds.take j)

/-- The method `Marshal` returns a buffer exactly on the valid movies and an
error on all the others. -/
def MarshalContract (a : Arch) (m : LedMovie) : Prop :=
  ((∃ buf, m.Marshal a = .ok buf) ↔ m.Valid) ∧ (¬ m.Valid → ∃ e, m.Marshal a = .error e)

/-- A movie with a zero-pixel frame is rejected with the empty-frame error, and
the index named is that of a zero-pixel frame. -/
def EmptyFrameRejected (a : Arch) (m : LedMovie) : Prop :=
  (∃ f ∈ m.Frames, f.Leds = []) →
    ∃ i, m.Marshal a = .error (errEmptyFrame i) ∧ ∃ f, m.Frames[i]? = some f ∧ f.Leds = []

/-- One of the two frames holds only RGB pixels and the other only RGBW
pixels. -/
def OneRgbOneRgbw (a b : Frame) : Prop :=
  (AllWhite false a.Leds ∧ AllWhite true b.Leds) ∨
  (AllWhite true a.Leds ∧ AllWhite false b.Leds)

/-- The two-frame movie `a, b` of non-empty frames, one RGB and one RGBW, is
rejected with the mixed-format error. -/
def MixedFormatRejected (arch : Arch) (a b : Frame) : Prop :=
  a.Leds ≠ [] → b.Leds ≠ [] → OneRgbOneRgbw a b →
    (LedMovie.mk [a, b]).Marshal arch = .error errWhiteMix

/-- One frame of the RGB pixels (255,0,0), (0,255,0), (0,0,255). -/
def rgbMovie : LedMovie :=
  ⟨[⟨[.rgb (NewRgbLed 255 0 0), .rgb (NewRgbLed 0 255 0), .rgb (NewRgbLed 0 0 255)]⟩]⟩

/-- One frame of the single RGBW pixel (10,20,30,40). -/
def rgbwMovie : LedMovie :=
  ⟨[⟨[.rgbw (NewRgbwLed 10 20 30 40)]⟩]⟩

/-- Two frames of two RGBW pixels each. -/
def rgbwMovie2 : LedMovie :=
  ⟨[⟨[.rgbw (NewRgbwLed 1 2 3 4), .rgbw (NewRgbwLed 5 6 7 8)]⟩,
    ⟨[.rgbw (NewRgbwLed 9 10 11 12), .rgbw (NewRgbwLed 13 14 15 16)]⟩]⟩

/-- A movie of 65536 frames that all hold the same 21846 RGB pixels (the
frames may share one `Leds` slice): it is valid, and its buffer size
`65536 * 21846 * 3 = 2 ^ 32 + 131072` is not a 32-bit `int`. -/
def wideMovie : LedMovie :=
  ⟨List.replicate 65536 ⟨List.replicate 21846 (.rgb (NewRgbLed 0 0 0))⟩⟩

/-- One frame whose only pixel is the nil interface value. -/
def nilPixelMovie : LedMovie := ⟨[⟨[.nil]⟩]⟩

/-- Frames of 1, 2 and 0 pixels: the pixel counts differ before the empty frame
is reached. -/
def lateEmptyFrameMovie : LedMovie :=
  ⟨[⟨[.rgb (NewRgbLed 1 2 3)]⟩, ⟨[.rgb (NewRgbLed 1 2 3), .rgb (NewRgbLed 4 5 6)]⟩, ⟨[]⟩]⟩

/-- Two frames of 2 pixels followed by a frame of 0 pixels. -/
def emptyThirdFrameMovie : LedMovie :=
  ⟨[⟨[.rgb (NewRgbLed 1 2 3), .rgb (NewRgbLed 4 5 6)]⟩,
    ⟨[.rgb (NewRgbLed 7 8 9), .rgb (NewRgbLed 1 1 1)]⟩, ⟨[]⟩]⟩

/-- A frame of one RGB pixel. -/
def rgbFrame1 : Frame := ⟨[.rgb (NewRgbLed 1 2 3)]⟩

/-- A frame of one RGBW pixel. -/
def rgbwFrame1 : Frame := ⟨[.rgbw (NewRgbwLed 1 2 3 4)]⟩

/-- A frame of two RGBW pixels. -/
def rgbwFrame2 : Frame := ⟨[.rgbw (NewRgbwLed 1 2 3 4), .rgbw (NewRgbwLed 5 6 7 8)]⟩

/-! ## Lemmas on the validation loops -/

@[simp] theorem Result.bind_ok {α β : Type} (a : α) (f : α → Result β) :
    (Result.ok a).bind f = f a := rfl

@[simp] theorem Result.bind_error {α β : Type} (e : Error) (f : α → Result β) :
    (Result.error e : Result α).bind f = .error e := rfl

@[simp] theorem Result.bind_panic {α β : Type} (p : Panic) (f : α → Result β) :
    (Result.panic p : Result α).bind f = .panic p := rfl

theorem allWhite_cons (b : Bool) (l : Led) (ls : List Led) :
    AllWhite b (l :: ls) ↔ l.HasWhite = .ok b ∧ AllWhite b ls := by
  simp [AllWhite]

theorem uniform_cons (n : Nat) (b : Bool) (f : Frame) (fs : List Frame) :
    Uniform n b (f :: fs) ↔ (f.Leds.length = n ∧ AllWhite b f.Leds) ∧ Uniform n b fs := by
  simp [Uniform]

theorem hasWhite_ok_cases (l : Led) :
    l = Led.nil ∨ l.HasWhite = .ok false ∨ l.HasWhite = .ok true := by
  cases l <;> simp [Led.HasWhite, RgbLed.HasWhite, RgbwLed.HasWhite]

theorem hasWhite_nil : Led.nil.HasWhite = .panic .nilDereference := rfl

theorem checkLeds_some_ok (leds : List Led) (b : Bool) (r : Option Bool) :
    checkLeds leds (some b) = .ok r ↔ r = some b ∧ AllWhite b leds := by
  induction leds with
  | nil => simp [checkLeds, AllWhite, eq_comm]
  | cons l ls ih =>
    rw [allWhite_cons]
    rcases hasWhite_ok_cases l with h | h | h
    · subst h; simp [checkLeds, hasWhite_nil]
    · cases b <;> simp [checkLeds, h, ih]
    · cases b <;> simp [checkLeds, h, ih]

theorem checkLeds_none_ok (l : Led) (ls : List Led) (r : Option Bool) :
    checkLeds (l :: ls) none = .ok r ↔ ∃ b, r = some b ∧ AllWhite b (l :: ls) := by
  rcases hasWhite_ok_cases l with h | h | h
  · subst h; simp [checkLeds, hasWhite_nil, allWhite_cons]
  · simp [checkLeds, h, checkLeds_some_ok, allWhite_cons]
  · simp [checkLeds, h, checkLeds_some_ok, allWhite_cons]

theorem checkFrames_some_ok (frames : List Frame) (i n : Nat) (b : Bool) (hn : 0 < n)
    (s : Prev) :
    checkFrames i frames ⟨some b, some n⟩ = .ok s ↔
      s = ⟨some b, some n⟩ ∧ Uniform n b frames := by
  induction frames generalizing i with
  | nil => simp [checkFrames, Uniform, eq_comm]
  | cons f fs ih =>
    rw [uniform_cons]
    by_cases hlen : f.Leds.length = n
    · subst hlen
      have h0 : f.Leds.length ≠ 0 := by omega
      by_cases hw : AllWhite b f.Leds
      · have hc : checkLeds f.Leds (some b) = .ok (some b) :=
          (checkLeds_some_ok _ _ _).2 ⟨rfl, hw⟩
        simp [checkFrames, h0, checkCount, hc, hw, ih]
      · have hc : ∀ r, checkLeds f.Leds (some b) ≠ .ok r := fun r h =>
          hw ((checkLeds_some_ok _ _ _).1 h).2
        cases hcl : checkLeds f.Leds (some b) with
        | ok r => exact absurd hcl (hc r)
        | error e => simp [checkFrames, h0, checkCount, hcl, hw]
        | panic p => simp [checkFrames, h0, checkCount, hcl, hw]
    · have hne : n ≠ f.Leds.length := fun h => hlen h.symm
      constructor
      · intro h
        by_cases h0 : f.Leds.length = 0 <;>
          simp [checkFrames, h0, checkCount, hne] at h
      · rintro ⟨_, ⟨h, _⟩, _⟩
        exact absurd h hlen

theorem checkFrames_init_ok (f : Frame) (fs : List Frame) (i : Nat) (s : Prev) :
    checkFrames i (f :: fs) ⟨none, none⟩ = .ok s ↔
      ∃ n b, 0 < n ∧ s = ⟨some b, some n⟩ ∧ Uniform n b (f :: fs) := by
  cases hl : f.Leds with
  | nil =>
    constructor
    · intro h
      simp [checkFrames, hl] at h
    · rintro ⟨n, b, hn, _, hu⟩
      rw [uniform_cons, hl] at hu
      have := hu.1.1
      simp at this
      omega
  | cons l ls =>
    have hpos : 0 < (l :: ls).length := by simp
    simp only [checkFrames, hl, checkCount, List.length_cons, Result.bind_ok, uniform_cons]
    simp only [beq_iff_eq, Nat.add_one_ne_zero, if_false]
    cases hc : checkLeds (l :: ls) none with
    | ok r =>
      obtain ⟨b, hr, hb⟩ := (checkLeds_none_ok _ _ _).1 hc
      subst hr
      simp only [Result.bind_ok]
      rw [checkFrames_some_ok _ _ _ _ (by omega)]
      constructor
      · rintro ⟨hs, hu⟩
        exact ⟨ls.length + 1, b, by omega, hs, ⟨rfl, hb⟩, hu⟩
      · rintro ⟨n, b2, _, hs, ⟨hn, hb2⟩, hu⟩
        have hbb : b2 = b := by
          have h1 := hb l (by simp)
          have h2 := hb2 l (by simp)
          rw [h1] at h2
          injection h2 with h2
          exact h2.symm
        subst hbb
        subst hn
        exact ⟨hs, hu⟩
    | error e =>
      constructor
      · intro h
        simp at h
      · rintro ⟨n, b, _, _, ⟨_, hb⟩, _⟩
        have := (checkLeds_none_ok l ls (some b)).2 ⟨b, rfl, hb⟩
        rw [hc] at this
        cases this
    | panic p =>
      constructor
      · intro h
        simp at h
      · rintro ⟨n, b, _, _, ⟨_, hb⟩, _⟩
        have := (checkLeds_none_ok l ls (some b)).2 ⟨b, rfl, hb⟩
        rw [hc] at this
        cases this

/-! ## Lemmas on `int` and the fill loops -/

theorem Arch.maxInt_add_le (a : Arch) : a.maxInt + 4 ≤ a.modulus := by
  unfold Arch.maxInt Arch.modulus
  cases a.word <;> simp

theorem Arch.wrap_small (a : Arch) (x : Nat) (h : x ≤ a.maxInt + 3) : a.wrap x = x :=
  Nat.mod_eq_of_lt (by have := a.maxInt_add_le; omega)

theorem Arch.wrap_le (a : Arch) (x : Nat) : a.wrap x ≤ x := Nat.mod_le _ _

theorem set_at0 (pre suf : List Byte) (a v : Byte) :
    (pre ++ a :: suf).set pre.length v = pre ++ v :: suf := by
  induction pre with
  | nil => rfl
  | cons x xs ih => simp [ih]

theorem store_at0 (a : Arch) (pre suf : List Byte) (x v : Byte) (k : Nat)
    (h : pre.length = k) (hk : k ≤ a.maxInt) :
    store a (pre ++ x :: suf) k v = .ok (pre ++ v :: suf) := by
  subst h
  simp [store, set_at0, hk]

theorem store_at1 (a : Arch) (pre suf : List Byte) (c0 x v : Byte) (k : Nat)
    (h : pre.length = k) (hk : k + 1 ≤ a.maxInt) :
    store a (pre ++ c0 :: x :: suf) (k + 1) v = .ok (pre ++ c0 :: v :: suf) := by
  have := store_at0 a (pre ++ [c0]) suf x v (k + 1) (by simp [h]) hk
  simpa using this

theorem store_at2 (a : Arch) (pre suf : List Byte) (c0 c1 x v : Byte) (k : Nat)
    (h : pre.length = k) (hk : k + 2 ≤ a.maxInt) :
    store a (pre ++ c0 :: c1 :: x :: suf) (k + 2) v = .ok (pre ++ c0 :: c1 :: v :: suf) := by
  have := store_at0 a (pre ++ [c0, c1]) suf x v (k + 2) (by simp [h]) hk
  simpa using this

theorem store_at3 (a : Arch) (pre suf : List Byte) (c0 c1 c2 x v : Byte) (k : Nat)
    (h : pre.length = k) (hk : k + 3 ≤ a.maxInt) :
    store a (pre ++ c0 :: c1 :: c2 :: x :: suf) (k + 3) v
      = .ok (pre ++ c0 :: c1 :: c2 :: v :: suf) := by
  have := store_at0 a (pre ++ [c0, c1, c2]) suf x v (k + 3) (by simp [h]) hk
  simpa using this

/-- A write at the index `len(buf)` panics. -/
theorem store_fail (a : Arch) (buf : List Byte) (k : Nat) (v : Byte) (h : buf.length = k) :
    store a buf k v = .panic (.indexOutOfRange k k) := by
  subst h
  simp [store]

/-- A pixel that is not nil answers all four channel calls, and its wire bytes
are those answers. -/
theorem led_channels (l : Led) (h : l ≠ Led.nil) :
    ∃ r g b w, l.Red = .ok r ∧ l.Green = .ok g ∧ l.Blue = .ok b ∧ l.White = .ok w ∧
      l.wire true = [r, g, b, w] ∧ l.wire false = [r, g, b] := by
  cases l with
  | nil => exact absurd rfl h
  | rgb l => exact ⟨_, _, _, _, rfl, rfl, rfl, rfl, rfl, rfl⟩
  | rgbw l => exact ⟨_, _, _, _, rfl, rfl, rfl, rfl, rfl, rfl⟩

theorem wire_length (l : Led) (h : l ≠ Led.nil) (hw : Bool) :
    (l.wire hw).length = pixelWidth hw := by
  obtain ⟨r, g, b, w, -, -, -, -, h1, h2⟩ := led_channels l h
  cases hw <;> simp [h1, h2, pixelWidth]

/-- The inner fill loop on a buffer `pre ++ suf` whose part `pre` is already
written: it appends the pixels' bytes when `suf` has room for them, and panics
at the index `len(buf)` otherwise. -/
theorem fillLeds_spec (a : Arch) (hw : Bool) (i n : Nat) (leds : List Led) :
    ∀ (j : Nat) (pre suf : List Byte), (∀ l ∈ leds, l ≠ Led.nil) →
      pre.length = i * n * pixelWidth hw + j * pixelWidth hw →
      pre.length + suf.length ≤ a.maxInt →
      fillLeds a hw (pixelWidth hw) i n j leds (pre ++ suf) =
        if leds.length * pixelWidth hw ≤ suf.length then
          .ok (pre ++ leds.flatMap (Led.wire hw) ++ suf.drop (leds.length * pixelWidth hw))
        else .panic (.indexOutOfRange (pre.length + suf.length) (pre.length + suf.length)) := by
  induction leds with
  | nil => intro j pre suf _ _ _; simp [fillLeds]
  | cons l ls ih =>
    intro j pre suf hnil hpre hmax
    obtain ⟨r, g, b, w, hR, hG, hB, hW, h1, h2⟩ := led_channels l (hnil l (by simp))
    have hls : ∀ l ∈ ls, l ≠ Led.nil := fun x hx => hnil x (by simp [hx])
    have hoff : a.wrap (i * n * pixelWidth hw + j * pixelWidth hw) = pre.length := by
      rw [← hpre]; exact a.wrap_small _ (by omega)
    have w1 : a.wrap (pre.length + 1) = pre.length + 1 := a.wrap_small _ (by omega)
    have w2 : a.wrap (pre.length + 2) = pre.length + 2 := a.wrap_small _ (by omega)
    have w3 : a.wrap (pre.length + 3) = pre.length + 3 := a.wrap_small _ (by omega)
    cases hw with
    | false =>
      simp only [fillLeds, hR, hG, hB, Result.bind_ok, Bool.false_eq_true, if_false, hoff, w1,
        w2]
      simp only [pixelWidth, Bool.false_eq_true, if_false, List.length_cons] at hpre ih ⊢
      rcases suf with _ | ⟨x, _ | ⟨y, _ | ⟨z, suf1⟩⟩⟩
      · rw [store_fail a _ _ r (by simp)]
        simp
      · simp only [List.length_cons, List.length_nil] at hmax
        rw [store_at0 a pre _ x r _ rfl (by omega), Result.bind_ok,
          store_fail a _ _ g (by simp)]
        simp
        rw [if_neg (by omega)]
      · simp only [List.length_cons, List.length_nil] at hmax
        rw [store_at0 a pre _ x r _ rfl (by omega), Result.bind_ok,
          store_at1 a pre _ r y g _ rfl (by omega), Result.bind_ok,
          store_fail a _ _ b (by simp)]
        simp
        rw [if_neg (by omega)]
      · simp only [List.length_cons] at hmax
        rw [store_at0 a pre _ x r _ rfl (by omega), Result.bind_ok,
          store_at1 a pre _ r y g _ rfl (by omega), Result.bind_ok,
          store_at2 a pre _ r g z b _ rfl (by omega), Result.bind_ok]
        have e1 : pre ++ r :: g :: b :: suf1 = (pre ++ [r, g, b]) ++ suf1 := by simp
        rw [e1, ih (j + 1) (pre ++ [r, g, b]) suf1 hls (by simp [hpre]; ring)
          (by simp; omega)]
        have e2 : (ls.length + 1) * 3 = ls.length * 3 + 3 := by ring
        by_cases hc : ls.length * 3 ≤ suf1.length
        · have hc2 : (ls.length + 1) * 3 ≤ suf1.length + 1 + 1 + 1 := by omega
          simp [hc, hc2, h2, e2]
        · have hc2 : ¬ (ls.length + 1) * 3 ≤ suf1.length + 1 + 1 + 1 := by omega
          simp only [hc, hc2, if_false, List.length_append, List.length_cons, List.length_nil]
          congr 2 <;> omega
    | true =>
      simp only [fillLeds, hR, hG, hB, hW, Result.bind_ok, if_true, hoff, w1, w2, w3]
      simp only [pixelWidth, if_true, List.length_cons] at hpre ih ⊢
      rcases suf with _ | ⟨x, _ | ⟨y, _ | ⟨z, _ | ⟨u, suf1⟩⟩⟩⟩
      · rw [store_fail a _ _ r (by simp)]
        simp
      · simp only [List.length_cons, List.length_nil] at hmax
        rw [store_at0 a pre _ x r _ rfl (by omega), Result.bind_ok,
          store_fail a _ _ g (by simp)]
        simp
        rw [if_neg (by omega)]
      · simp only [List.length_cons, List.length_nil] at hmax
        rw [store_at0 a pre _ x r _ rfl (by omega), Result.bind_ok,
          store_at1 a pre _ r y g _ rfl (by omega), Result.bind_ok,
          store_fail a _ _ b (by simp)]
        simp
        rw [if_neg (by omega)]
      · simp only [List.length_cons, List.length_nil] at hmax
        rw [store_at0 a pre _ x r _ rfl (by omega), Result.bind_ok,
          store_at1 a pre _ r y g _ rfl (by omega), Result.bind_ok,
          store_at2 a pre _ r g z b _ rfl (by omega), Result.bind_ok,
          store_fail a _ _ w (by simp)]
        simp
        rw [if_neg (by omega)]
      · simp only [List.length_cons] at hmax
        rw [store_at0 a pre _ x r _ rfl (by omega), Result.bind_ok,
          store_at1 a pre _ r y g _ rfl (by omega), Result.bind_ok,
          store_at2 a pre _ r g z b _ rfl (by omega), Result.bind_ok,
          store_at3 a pre _ r g b u w _ rfl (by omega), Result.bind_ok]
        have e1 : pre ++ r :: g :: b :: w :: suf1 = (pre ++ [r, g, b, w]) ++ suf1 := by simp
        rw [e1, ih (j + 1) (pre ++ [r, g, b, w]) suf1 hls (by simp [hpre]; ring)
          (by simp; omega)]
        have e2 : (ls.length + 1) * 4 = ls.length * 4 + 4 := by ring
        by_cases hc : ls.length * 4 ≤ suf1.length
        · have hc2 : (ls.length + 1) * 4 ≤ suf1.length + 1 + 1 + 1 + 1 := by omega
          simp [hc, hc2, h1, e2]
        · have hc2 : ¬ (ls.length + 1) * 4 ≤ suf1.length + 1 + 1 + 1 + 1 := by omega
          simp only [hc, hc2, if_false, List.length_append, List.length_cons, List.length_nil]
          congr 2 <;> omega

theorem ne_nil_of_hasWhite (l : Led) (b : Bool) (h : l.HasWhite = .ok b) : l ≠ Led.nil := by
  intro hl
  subst hl
  simp [hasWhite_nil] at h

theorem frame_wire_length (hw : Bool) (leds : List Led) (h : ∀ l ∈ leds, l ≠ Led.nil) :
    (leds.flatMap (Led.wire hw)).length = leds.length * pixelWidth hw := by
  induction leds with
  | nil => simp
  | cons l ls ih =>
    have h1 := wire_length l (h l (by simp)) hw
    have h2 := ih (fun x hx => h x (by simp [hx]))
    simp only [List.flatMap_cons, List.length_append, List.length_cons, h1, h2]
    ring

/-- The outer fill loop on a buffer `pre ++ suf` whose part `pre` is already
written: it appends the frames' bytes when `suf` has room for them, and panics
at the index `len(buf)` otherwise. -/
theorem fillFrames_spec (a : Arch) (hw : Bool) (n : Nat) (frames : List Frame) :
    ∀ (i : Nat) (pre suf : List Byte),
      (∀ f ∈ frames, f.Leds.length = n ∧ ∀ l ∈ f.Leds, l ≠ Led.nil) →
      pre.length = i * n * pixelWidth hw →
      pre.length + suf.length ≤ a.maxInt →
      fillFrames a hw (pixelWidth hw) i frames (pre ++ suf) =
        if frames.length * n * pixelWidth hw ≤ suf.length then
          .ok (pre ++ wireFormat hw frames ++ suf.drop (frames.length * n * pixelWidth hw))
        else .panic (.indexOutOfRange (pre.length + suf.length) (pre.length + suf.length)) := by
  induction frames with
  | nil => intro i pre suf _ _ _; simp [fillFrames, wireFormat]
  | cons f fs ih =>
    intro i pre suf hall hpre hmax
    obtain ⟨hlen, hnil⟩ := hall f (by simp)
    have hfs : ∀ g ∈ fs, g.Leds.length = n ∧ ∀ l ∈ g.Leds, l ≠ Led.nil :=
      fun g hg => hall g (by simp [hg])
    have hsuf1 : (fs.length + 1) * n * pixelWidth hw
        = n * pixelWidth hw + fs.length * n * pixelWidth hw := by ring
    have hstep := fillLeds_spec a hw i f.Leds.length f.Leds 0 pre suf hnil
      (by rw [hlen, hpre]; ring) hmax
    have hwl := frame_wire_length hw f.Leds hnil
    rw [hlen] at hstep hwl
    simp only [fillFrames, hlen, hstep, List.length_cons]
    by_cases h1 : n * pixelWidth hw ≤ suf.length
    · simp only [h1, if_true, Result.bind_ok]
      rw [ih (i + 1) (pre ++ f.Leds.flatMap (Led.wire hw)) _ hfs
        (by rw [List.length_append, hwl, hpre]; ring)
        (by rw [List.length_append, hwl, List.length_drop]; omega)]
      have hL : (pre ++ f.Leds.flatMap (Led.wire hw)).length
          + (List.drop (n * pixelWidth hw) suf).length = pre.length + suf.length := by
        rw [List.length_append, hwl, List.length_drop]; omega
      rw [hL, List.length_drop]
      by_cases h2 : fs.length * n * pixelWidth hw ≤ suf.length - n * pixelWidth hw
      · simp only [h2, if_true, wireFormat, Frame.wire, List.flatMap_cons,
          List.append_assoc, List.drop_drop, hsuf1]
        rw [if_pos (by omega)]
      · simp only [h2, if_false]
        rw [if_neg (by omega)]
    · simp only [h1, if_false, Result.bind_panic]
      rw [if_neg (by omega)]

/-- What `Marshal` does with a non-empty movie of frames of `n > 0` pixels that
all report `HasWhite = b`: `make` panics when the `int` size is negative or too
large; otherwise the buffer is filled when the size did not wrap, and a write
panics at the index `len(buf)` when it did. -/
theorem marshal_uniform (a : Arch) (frames : List Frame) (n : Nat) (b : Bool) (hn : 0 < n)
    (hne : frames ≠ []) (hu : Uniform n b frames) :
    (LedMovie.mk frames).Marshal a =
      if a.maxInt < a.wrap (frames.length * n * pixelWidth b) ∨
          a.maxAlloc < a.wrap (frames.length * n * pixelWidth b) then
        .panic .makesliceLen
      else if frames.length * n * pixelWidth b ≤ a.wrap (frames.length * n * pixelWidth b) then
        .ok (wireFormat b frames)
      else
        .panic (.indexOutOfRange (a.wrap (frames.length * n * pixelWidth b))
          (a.wrap (frames.length * n * pixelWidth b))) := by
  cases frames with
  | nil => exact absurd rfl hne
  | cons f fs =>
    have hc : checkFrames 0 (f :: fs) ⟨none, none⟩ = .ok ⟨some b, some n⟩ :=
      (checkFrames_init_ok f fs 0 _).2 ⟨n, b, hn, rfl, hu⟩
    have hall : ∀ g ∈ f :: fs, g.Leds.length = n ∧ ∀ l ∈ g.Leds, l ≠ Led.nil :=
      fun g hg => ⟨(hu g hg).1, fun l hl => ne_nil_of_hasWhite l b ((hu g hg).2 l hl)⟩
    have hf : f.Leds.length = n := (hu f (by simp)).1
    have hpw : (if b = true then 4 else 3) = pixelWidth b := rfl
    simp only [LedMovie.Marshal, hc, Result.bind_ok, hf, hpw, List.length_cons, beq_iff_eq,
      Nat.add_one_ne_zero, if_false, makeslice]
    generalize hL : a.wrap ((fs.length + 1) * n * pixelWidth b) = L
    have hLle : L ≤ (fs.length + 1) * n * pixelWidth b := by
      rw [← hL]; exact a.wrap_le _
    by_cases hmk : a.maxInt < L ∨ a.maxAlloc < L
    · simp only [hmk, if_true, Result.bind_panic]
    · simp only [hmk, if_false, Result.bind_ok]
      have hmax : L ≤ a.maxInt := by
        by_contra hcon
        exact hmk (Or.inl (by omega))
      have hfill := fillFrames_spec a b n (f :: fs) 0 [] (List.replicate L 0) hall (by simp)
        (by simpa using hmax)
      simp only [List.nil_append, List.length_cons, List.length_replicate, List.length_nil,
        Nat.zero_add] at hfill
      rw [hfill]
      by_cases hN : (fs.length + 1) * n * pixelWidth b ≤ L
      · have hd : List.drop ((fs.length + 1) * n * pixelWidth b) (List.replicate L (0 : Byte))
            = [] := by
          apply List.drop_eq_nil_of_le
          simpa using hLle
        simp only [hN, if_true, hd, List.append_nil]
      · simp only [hN, if_false]

theorem marshal_fits (a : Arch) (frames : List Frame) (n : Nat) (b : Bool) (hn : 0 < n)
    (hne : frames ≠ []) (hu : Uniform n b frames)
    (h1 : frames.length * n * pixelWidth b ≤ a.maxInt)
    (h2 : frames.length * n * pixelWidth b ≤ a.maxAlloc) :
    (LedMovie.mk frames).Marshal a = .ok (wireFormat b frames) := by
  rw [marshal_uniform a frames n b hn hne hu, a.wrap_small _ (by omega)]
  have h3 : ¬ (a.maxInt < frames.length * n * pixelWidth b ∨
      a.maxAlloc < frames.length * n * pixelWidth b) := by omega
  simp only [h3, if_false, Nat.le_refl, if_true]

theorem marshal_too_big (a : Arch) (frames : List Frame) (n : Nat) (b : Bool) (hn : 0 < n)
    (hne : frames ≠ []) (hu : Uniform n b frames)
    (h : ¬ (frames.length * n * pixelWidth b ≤ a.maxInt ∧
      frames.length * n * pixelWidth b ≤ a.maxAlloc)) :
    ∃ p, (LedMovie.mk frames).Marshal a = .panic p := by
  rw [marshal_uniform a frames n b hn hne hu]
  by_cases hmk : a.maxInt < a.wrap (frames.length * n * pixelWidth b) ∨
      a.maxAlloc < a.wrap (frames.length * n * pixelWidth b)
  · refine ⟨.makesliceLen, ?_⟩
    simp only [hmk, if_true]
  · have hN : ¬ frames.length * n * pixelWidth b ≤ a.wrap (frames.length * n * pixelWidth b) := by
      intro hle
      apply h
      constructor <;> omega
    refine ⟨.indexOutOfRange (a.wrap (frames.length * n * pixelWidth b))
      (a.wrap (frames.length * n * pixelWidth b)), ?_⟩
    simp only [hmk, hN, if_false]

theorem uniform_of_marshal (a : Arch) (m : LedMovie) (buf : List Byte)
    (h : m.Marshal a = .ok buf) :
    ∃ n b, 0 < n ∧ m.Frames ≠ [] ∧ Uniform n b m.Frames := by
  obtain ⟨frames⟩ := m
  cases frames with
  | nil => simp [LedMovie.Marshal] at h
  | cons f fs =>
    cases hc : checkFrames 0 (f :: fs) ⟨none, none⟩ with
    | ok s =>
      obtain ⟨n, b, hn, _, hu⟩ := (checkFrames_init_ok f fs 0 s).1 hc
      exact ⟨n, b, hn, by simp, hu⟩
    | error e => simp [LedMovie.Marshal, hc] at h
    | panic p => simp [LedMovie.Marshal, hc] at h

theorem uniform_unique (frames : List Frame) (n n2 : Nat) (b b2 : Bool) (hn : 0 < n)
    (hne : frames ≠ []) (hu : Uniform n b frames) (hu2 : Uniform n2 b2 frames) :
    n2 = n ∧ b2 = b := by
  cases frames with
  | nil => exact absurd rfl hne
  | cons f fs =>
    have h1 := hu f (by simp)
    have h2 := hu2 f (by simp)
    refine ⟨by omega, ?_⟩
    cases hl : f.Leds with
    | nil => rw [hl] at h1; simp at h1; omega
    | cons l ls =>
      have a1 := h1.2 l (by simp [hl])
      have a2 := h2.2 l (by simp [hl])
      rw [a1] at a2
      injection a2 with a2
      exact a2.symm

theorem marshal_ok_iff (a : Arch) (m : LedMovie) (buf : List Byte) :
    m.Marshal a = .ok buf ↔
      ∃ n b, 0 < n ∧ m.Frames ≠ [] ∧ Uniform n b m.Frames ∧
        m.Frames.length * n * pixelWidth b ≤ a.maxInt ∧
        m.Frames.length * n * pixelWidth b ≤ a.maxAlloc ∧ buf = wireFormat b m.Frames := by
  constructor
  · intro h
    obtain ⟨n, b, hn, hne, hu⟩ := uniform_of_marshal a m buf h
    have hm : (LedMovie.mk m.Frames) = m := rfl
    by_cases hfit : m.Frames.length * n * pixelWidth b ≤ a.maxInt ∧
        m.Frames.length * n * pixelWidth b ≤ a.maxAlloc
    · have h2 := marshal_fits a m.Frames n b hn hne hu hfit.1 hfit.2
      rw [hm, h] at h2
      injection h2 with h2
      exact ⟨n, b, hn, hne, hu, hfit.1, hfit.2, h2⟩
    · obtain ⟨p, hp⟩ := marshal_too_big a m.Frames n b hn hne hu hfit
      rw [hm, h] at hp
      cases hp
  · rintro ⟨n, b, hn, hne, hu, h1, h2, rfl⟩
    exact marshal_fits a m.Frames n b hn hne hu h1 h2

theorem valid_iff_uniform (m : LedMovie) :
    m.Valid ↔ ∃ n b, 0 < n ∧ m.Frames ≠ [] ∧ Uniform n b m.Frames := by
  constructor
  · rintro ⟨hne, hpos, hlen, b, hb⟩
    cases hf : m.Frames with
    | nil => exact absurd hf hne
    | cons f fs =>
      have hfm : f ∈ m.Frames := by simp [hf]
      refine ⟨f.Leds.length, b, ?_, by simp, ?_⟩
      · exact List.length_pos.2 (hpos f hfm)
      · intro g hg
        rw [← hf] at hg
        exact ⟨hlen g hg f hfm, hb g hg⟩
  · rintro ⟨n, b, hn, hne, hu⟩
    refine ⟨hne, ?_, ?_, b, fun f hf => (hu f hf).2⟩
    · intro f hf h0
      have := (hu f hf).1
      rw [h0] at this
      simp at this
      omega
    · intro f hf g hg
      rw [(hu f hf).1, (hu g hg).1]

/-- The size `len(m.Frames) * len(m.Frames[0].Leds) * ledSize` of a movie of
frames of `n > 0` pixels that all report `HasWhite = b`. -/
theorem wireSize_uniform (m : LedMovie) (n : Nat) (b : Bool) (hn : 0 < n)
    (hne : m.Frames ≠ []) (hu : Uniform n b m.Frames) :
    m.wireSize = m.Frames.length * n * pixelWidth b := by
  obtain ⟨frames⟩ := m
  cases frames with
  | nil => exact absurd rfl hne
  | cons f fs =>
    obtain ⟨hlen, hw⟩ := hu f (by simp)
    cases hl : f.Leds with
    | nil => rw [hl] at hlen; simp at hlen; omega
    | cons l ls =>
      have hb : l.HasWhite = .ok b := hw l (by simp [hl])
      have hfw : (LedMovie.mk (f :: fs)).firstHasWhite = b := by
        simp only [LedMovie.firstHasWhite, hl, hb]
        cases b <;> decide
      simp only [LedMovie.wireSize, hfw, hlen]

/-! ## Absence of panics on movies without nil pixels -/

theorem checkLeds_noPanic (leds : List Led) (h : ∀ l ∈ leds, l ≠ Led.nil) :
    ∀ (w : Option Bool) (p : Panic), checkLeds leds w ≠ .panic p := by
  induction leds with
  | nil => intro w p; simp [checkLeds]
  | cons l ls ih =>
    intro w p
    have ih2 := ih (fun x hx => h x (by simp [hx]))
    rcases hasWhite_ok_cases l with hl | hl | hl
    · exact absurd hl (h l (by simp))
    · cases w with
      | none => simpa [checkLeds, hl] using ih2 _ p
      | some c =>
        cases c
        · simpa [checkLeds, hl] using ih2 _ p
        · simp [checkLeds, hl]
    · cases w with
      | none => simpa [checkLeds, hl] using ih2 _ p
      | some c =>
        cases c
        · simp [checkLeds, hl]
        · simpa [checkLeds, hl] using ih2 _ p

theorem checkFrames_noPanic (frames : List Frame)
    (h : ∀ f ∈ frames, ∀ l ∈ f.Leds, l ≠ Led.nil) :
    ∀ (i : Nat) (s : Prev) (p : Panic), checkFrames i frames s ≠ .panic p := by
  induction frames with
  | nil => intro i s p; simp [checkFrames]
  | cons f fs ih =>
    intro i s p
    have ih2 := ih (fun g hg => h g (by simp [hg]))
    have hl := checkLeds_noPanic f.Leds (h f (by simp)) s.prevHasWhite
    by_cases h0 : f.Leds.length = 0
    · simp [checkFrames, h0]
    · simp only [checkFrames, beq_iff_eq, h0, if_false]
      cases hc : checkCount f.Leds.length s.prevLedCount with
      | panic q =>
        cases hs : s.prevLedCount with
        | none => simp [checkCount, hs] at hc
        | some c =>
          by_cases hcn : c = f.Leds.length <;> simp [checkCount, hs, hcn] at hc
      | error e => simp
      | ok c =>
        cases hw : checkLeds f.Leds s.prevHasWhite with
        | panic q => exact absurd hw (hl q)
        | error e => simp
        | ok w => simpa using ih2 _ _ p

/-! ## When validation panics -/

theorem checkLeds_some_panic (leds : List Led) (b : Bool) (p : Panic) :
    checkLeds leds (some b) = .panic p →
      ∃ j, leds[j]? = some Led.nil ∧ AllWhite b (leds.take j) := by
  induction leds with
  | nil => intro h; simp [checkLeds] at h
  | cons l ls ih =>
    intro h
    rcases hasWhite_ok_cases l with hl | hl | hl
    · subst hl
      exact ⟨0, by simp, by simp [AllWhite]⟩
    · cases b
      · simp only [checkLeds, hl, Result.bind_ok, bne_self_eq_false, Bool.false_eq_true,
          if_false] at h
        obtain ⟨j, h1, h2⟩ := ih h
        refine ⟨j + 1, by simpa using h1, ?_⟩
        rw [List.take_succ_cons, allWhite_cons]
        exact ⟨hl, h2⟩
      · simp [checkLeds, hl] at h
    · cases b
      · simp [checkLeds, hl] at h
      · simp only [checkLeds, hl, Result.bind_ok, bne_self_eq_false, Bool.false_eq_true,
          if_false] at h
        obtain ⟨j, h1, h2⟩ := ih h
        refine ⟨j + 1, by simpa using h1, ?_⟩
        rw [List.take_succ_cons, allWhite_cons]
        exact ⟨hl, h2⟩

theorem checkLeds_none_panic (leds : List Led) (p : Panic) :
    checkLeds leds none = .panic p →
      ∃ j b, leds[j]? = some Led.nil ∧ AllWhite b (leds.take j) := by
  cases leds with
  | nil => intro h; simp [checkLeds] at h
  | cons l ls =>
    intro h
    rcases hasWhite_ok_cases l with hl | hl | hl
    · subst hl
      exact ⟨0, false, by simp, by simp [AllWhite]⟩
    · simp only [checkLeds, hl, Result.bind_ok] at h
      obtain ⟨j, h1, h2⟩ := checkLeds_some_panic ls _ p h
      refine ⟨j + 1, false, by simpa using h1, ?_⟩
      rw [List.take_succ_cons, allWhite_cons]
      exact ⟨hl, h2⟩
    · simp only [checkLeds, hl, Result.bind_ok] at h
      obtain ⟨j, h1, h2⟩ := checkLeds_some_panic ls _ p h
      refine ⟨j + 1, true, by simpa using h1, ?_⟩
      rw [List.take_succ_cons, allWhite_cons]
      exact ⟨hl, h2⟩

theorem checkFrames_some_panic (frames : List Frame) (n : Nat) (b : Bool) (p : Panic) :
    ∀ i, checkFrames i frames ⟨some b, some n⟩ = .panic p →
      ∃ k j f, frames[k]? = some f ∧ f.Leds[j]? = some Led.nil ∧
        Uniform n b (frames.take k) ∧ f.Leds.length = n ∧ AllWhite b (f.Leds.take j) := by
  induction frames with
  | nil => intro i h; simp [checkFrames] at h
  | cons f fs ih =>
    intro i h
    by_cases h0 : f.Leds.length = 0
    · simp [checkFrames, h0] at h
    by_cases hlen : n = f.Leds.length
    swap
    · simp [checkFrames, h0, checkCount, hlen] at h
    subst hlen
    simp only [checkFrames, beq_iff_eq, h0, if_false, checkCount, bne_self_eq_false,
      Bool.false_eq_true, Result.bind_ok] at h
    cases hc : checkLeds f.Leds (some b) with
    | panic q =>
      obtain ⟨j, h1, h2⟩ := checkLeds_some_panic f.Leds b q hc
      exact ⟨0, j, f, by simp, h1, by simp [Uniform], rfl, h2⟩
    | error e => simp [hc] at h
    | ok r =>
      obtain ⟨hr, hw⟩ := (checkLeds_some_ok _ _ _).1 hc
      subst hr
      simp only [hc, Result.bind_ok] at h
      obtain ⟨k, j, g, h1, h2, h3, h4, h5⟩ := ih (i + 1) h
      refine ⟨k + 1, j, g, by simpa using h1, h2, ?_, h4, h5⟩
      rw [List.take_succ_cons, uniform_cons]
      exact ⟨⟨rfl, hw⟩, h3⟩

theorem checkFrames_init_panic (f : Frame) (fs : List Frame) (i : Nat) (p : Panic)
    (h : checkFrames i (f :: fs) ⟨none, none⟩ = .panic p) :
    (LedMovie.mk (f :: fs)).NilReached := by
  by_cases h0 : f.Leds.length = 0
  · simp [checkFrames, h0] at h
  simp only [checkFrames, beq_iff_eq, h0, if_false, checkCount, Result.bind_ok] at h
  cases hc : checkLeds f.Leds none with
  | panic q =>
    obtain ⟨j, b, h1, h2⟩ := checkLeds_none_panic f.Leds q hc
    exact ⟨0, j, f, 1, b, by omega, by simp, h1, by simp [Uniform], Or.inl rfl, h2⟩
  | error e => simp [hc] at h
  | ok r =>
    cases hl : f.Leds with
    | nil => simp [hl] at h0
    | cons l ls =>
      rw [hl] at hc
      obtain ⟨b, hr, hw⟩ := (checkLeds_none_ok l ls r).1 hc
      subst hr
      rw [← hl] at hc hw
      simp only [hc, Result.bind_ok] at h
      obtain ⟨k, j, g, h1, h2, h3, h4, h5⟩ := checkFrames_some_panic fs _ b p (i + 1) h
      refine ⟨k + 1, j, g, f.Leds.length, b, by omega, by simpa using h1, h2, ?_, Or.inr h4, h5⟩
      show Uniform _ _ (List.take (k + 1) (f :: fs))
      rw [List.take_succ_cons, uniform_cons]
      exact ⟨⟨rfl, hw⟩, h3⟩

theorem noNil_not_nilReached (m : LedMovie) (h : m.NoNilLed) : ¬ m.NilReached := by
  rintro ⟨k, j, f, n, b, _, hf, hl, _⟩
  exact h f (List.getElem?_mem hf) Led.nil (List.getElem?_mem hl) rfl

theorem checkFrames_append (pre post : List Frame) :
    ∀ (i : Nat) (s : Prev),
      checkFrames i (pre ++ post) s =
        (checkFrames i pre s).bind fun s1 => checkFrames (i + pre.length) post s1 := by
  induction pre with
  | nil => intro i s; simp [checkFrames]
  | cons f fs ih =>
    intro i s
    by_cases h0 : f.Leds.length = 0
    · simp [checkFrames, h0]
    · rw [List.cons_append]
      simp only [checkFrames, beq_iff_eq, h0, if_false, List.length_cons]
      cases checkCount f.Leds.length s.prevLedCount with
      | error e => simp
      | panic q => simp
      | ok c =>
        cases checkLeds f.Leds s.prevHasWhite with
        | error e => simp
        | panic q => simp
        | ok w =>
          have e : i + (fs.length + 1) = i + 1 + fs.length := by omega
          simp only [Result.bind_ok, e]
          exact ih _ _

theorem split_at_getElem? {α : Type} (l : List α) :
    ∀ (k : Nat) (a : α), l[k]? = some a →
      l = l.take k ++ a :: l.drop (k + 1) ∧ (l.take k).length = k := by
  induction l with
  | nil => intro k a h; simp at h
  | cons x xs ih =>
    intro k a h
    cases k with
    | zero =>
      simp only [List.getElem?_cons_zero, Option.some.injEq] at h
      subst h
      simp
    | succ k =>
      simp only [List.getElem?_cons_succ] at h
      obtain ⟨h1, h2⟩ := ih k a h
      constructor
      · simp only [List.take_succ_cons, List.drop_succ_cons, List.cons_append]
        rw [← h1]
      · simp only [List.take_succ_cons, List.length_cons, h2]

theorem checkFrames_uniform_ok (pre : List Frame) (n : Nat) (b : Bool) (hn : 0 < n)
    (hu : Uniform n b pre) : ∃ s, checkFrames 0 pre ⟨none, none⟩ = .ok s := by
  cases pre with
  | nil => exact ⟨_, rfl⟩
  | cons f fs => exact ⟨_, (checkFrames_init_ok f fs 0 _).2 ⟨n, b, hn, rfl, hu⟩⟩

/-! ## The outcome of `Marshal`, case by case -/

theorem checkLeds_reach_nil (pre post : List Led) (b : Bool) (h : AllWhite b pre) :
    checkLeds (pre ++ Led.nil :: post) (some b) = .panic .nilDereference := by
  induction pre with
  | nil => simp [checkLeds, hasWhite_nil]
  | cons l ls ih =>
    obtain ⟨hl, hls⟩ := (allWhite_cons b l ls).1 h
    simp [checkLeds, hl, ih hls]

theorem checkLeds_reach_nil_none (pre post : List Led) (b : Bool) (h : AllWhite b pre) :
    checkLeds (pre ++ Led.nil :: post) none = .panic .nilDereference := by
  cases pre with
  | nil => simp [checkLeds, hasWhite_nil]
  | cons l ls =>
    obtain ⟨hl, hls⟩ := (allWhite_cons b l ls).1 h
    simp [checkLeds, hl, checkLeds_reach_nil ls post b hls]

/-- When validation reaches a nil pixel before any defect, `Marshal` panics on
the call of `HasWhite`. -/
theorem marshal_nilReached (a : Arch) (m : LedMovie) (h : m.NilReached) :
    m.Marshal a = .panic .nilDereference := by
  obtain ⟨k, j, f, n, b, hn, hf, hl, hu, hk, hw⟩ := h
  obtain ⟨hsplit, hlen⟩ := split_at_getElem? m.Frames k f hf
  obtain ⟨lsplit, -⟩ := split_at_getElem? f.Leds j Led.nil hl
  have hne : m.Frames.length ≠ 0 := by
    have := (List.getElem?_eq_some.1 hf).1
    omega
  have hf0 : f.Leds.length ≠ 0 := by
    have := (List.getElem?_eq_some.1 hl).1
    omega
  have hc : checkFrames 0 m.Frames ⟨none, none⟩ = .panic .nilDereference := by
    rw [hsplit, checkFrames_append]
    cases ht : m.Frames.take k with
    | nil =>
      have hp := checkLeds_reach_nil_none _ (f.Leds.drop (j + 1)) b hw
      rw [← lsplit] at hp
      simp [checkFrames, hf0, checkCount, hp]
    | cons g gs =>
      rw [ht] at hu hlen
      have hk0 : k ≠ 0 := by
        intro h0
        rw [h0] at hlen
        simp at hlen
      have hfn : f.Leds.length = n := by
        rcases hk with hk | hk
        · exact absurd hk hk0
        · exact hk
      have hs : checkFrames 0 (g :: gs) ⟨none, none⟩ = .ok ⟨some b, some n⟩ :=
        (checkFrames_init_ok g gs 0 _).2 ⟨n, b, hn, rfl, hu⟩
      have hp := checkLeds_reach_nil _ (f.Leds.drop (j + 1)) b hw
      rw [← lsplit] at hp
      rw [hs, Result.bind_ok]
      subst hfn
      simp [checkFrames, hf0, checkCount, hp]
  simp only [LedMovie.Marshal, beq_iff_eq, hne, if_false, hc, Result.bind_panic]

/-- A movie that is not valid and whose validation reaches no nil pixel is
rejected with an error. -/
theorem marshal_invalid (a : Arch) (m : LedMovie) (hv : ¬ m.Valid) (hr : ¬ m.NilReached) :
    ∃ e, m.Marshal a = .error e := by
  obtain ⟨frames⟩ := m
  cases frames with
  | nil => exact ⟨errNoFrames, by simp [LedMovie.Marshal]⟩
  | cons f fs =>
    cases hc : checkFrames 0 (f :: fs) ⟨none, none⟩ with
    | ok s =>
      obtain ⟨n, b, hn, _, hu⟩ := (checkFrames_init_ok f fs 0 s).1 hc
      exact absurd ((valid_iff_uniform _).2 ⟨n, b, hn, by simp, hu⟩) hv
    | error e => exact ⟨e, by simp [LedMovie.Marshal, hc]⟩
    | panic q => exact absurd (checkFrames_init_panic f fs 0 q hc) hr

/-- A buffer is returned exactly for the valid movies whose buffer fits. -/
theorem marshal_ok_iff_valid (a : Arch) (m : LedMovie) :
    (∃ buf, m.Marshal a = .ok buf) ↔ m.Valid ∧ m.Fits a := by
  constructor
  · rintro ⟨buf, h⟩
    obtain ⟨n, b, hn, hne, hu, h1, h2, _⟩ := (marshal_ok_iff a m buf).1 h
    refine ⟨(valid_iff_uniform m).2 ⟨n, b, hn, hne, hu⟩, ?_⟩
    unfold LedMovie.Fits
    rw [wireSize_uniform m n b hn hne hu]
    exact ⟨h1, h2⟩
  · rintro ⟨hv, hf⟩
    obtain ⟨n, b, hn, hne, hu⟩ := (valid_iff_uniform m).1 hv
    unfold LedMovie.Fits at hf
    rw [wireSize_uniform m n b hn hne hu] at hf
    exact ⟨_, marshal_fits a m.Frames n b hn hne hu hf.1 hf.2⟩

/-- A valid movie whose buffer does not fit makes `Marshal` panic. -/
theorem marshal_valid_not_fits (a : Arch) (m : LedMovie) (hv : m.Valid) (hf : ¬ m.Fits a) :
    ∃ p, m.Marshal a = .panic p := by
  obtain ⟨n, b, hn, hne, hu⟩ := (valid_iff_uniform m).1 hv
  unfold LedMovie.Fits at hf
  rw [wireSize_uniform m n b hn hne hu] at hf
  exact marshal_too_big a m.Frames n b hn hne hu hf

/-! ## Indexing into the flat buffer -/

theorem flatMap_getElem? {α β : Type} (g : α → List β) (w : Nat) (xs : List α)
    (hw : ∀ x ∈ xs, (g x).length = w) :
    ∀ (k c : Nat) (x : α), xs[k]? = some x → c < w →
      (xs.flatMap g)[k * w + c]? = (g x)[c]? := by
  induction xs with
  | nil => intro k c x h; simp at h
  | cons y ys ih =>
    intro k c x h hc
    have hy : (g y).length = w := hw y (by simp)
    cases k with
    | zero =>
      simp only [List.getElem?_cons_zero, Option.some.injEq] at h
      subst h
      simp only [List.flatMap_cons, Nat.zero_mul, Nat.zero_add]
      exact List.getElem?_append_left (by omega)
    | succ k =>
      simp only [List.getElem?_cons_succ] at h
      have ih2 := ih (fun x hx => hw x (by simp [hx])) k c x h hc
      simp only [List.flatMap_cons]
      rw [List.getElem?_append_right (by rw [hy, Nat.add_mul]; omega)]
      rw [← ih2]
      congr 1
      rw [hy, Nat.add_mul]
      omega

theorem wireFormat_get (hw : Bool) (n : Nat) (frames : List Frame)
    (hall : ∀ f ∈ frames, f.Leds.length = n ∧ ∀ l ∈ f.Leds, l ≠ Led.nil)
    (i j c : Nat) (f : Frame) (l : Led) (hf : frames[i]? = some f) (hl : f.Leds[j]? = some l)
    (hc : c < pixelWidth hw) :
    (wireFormat hw frames)[(i * n + j) * pixelWidth hw + c]? = (l.wire hw)[c]? := by
  have hfm : f ∈ frames := List.getElem?_mem hf
  have hj : j < n := by
    have := (List.getElem?_eq_some.1 hl).1
    rw [(hall f hfm).1] at this
    exact this
  have hchunk : ∀ g ∈ frames, (Frame.wire hw g).length = n * pixelWidth hw := by
    intro g hg
    rw [Frame.wire, frame_wire_length hw g.Leds (hall g hg).2, (hall g hg).1]
  have hlt : j * pixelWidth hw + c < n * pixelWidth hw := by
    have : (j + 1) * pixelWidth hw ≤ n * pixelWidth hw := Nat.mul_le_mul_right _ hj
    rw [Nat.add_mul] at this
    omega
  have e : (i * n + j) * pixelWidth hw + c
      = i * (n * pixelWidth hw) + (j * pixelWidth hw + c) := by ring
  rw [e, wireFormat, flatMap_getElem? (Frame.wire hw) _ frames hchunk i _ f hf hlt, Frame.wire]
  exact flatMap_getElem? (Led.wire hw) _ f.Leds
    (fun x hx => wire_length x ((hall f hfm).2 x hx) hw) j c l hl hc

theorem uniform_noNil (n : Nat) (b : Bool) (frames : List Frame) (hu : Uniform n b frames) :
    ∀ f ∈ frames, f.Leds.length = n ∧ ∀ l ∈ f.Leds, l ≠ Led.nil :=
  fun g hg => ⟨(hu g hg).1, fun l hl => ne_nil_of_hasWhite l b ((hu g hg).2 l hl)⟩

theorem wireFormat_length (hw : Bool) (n : Nat) (frames : List Frame)
    (hall : ∀ f ∈ frames, f.Leds.length = n ∧ ∀ l ∈ f.Leds, l ≠ Led.nil) :
    (wireFormat hw frames).length = frames.length * n * pixelWidth hw := by
  induction frames with
  | nil => simp [wireFormat]
  | cons f fs ih =>
    have h1 := ih (fun g hg => hall g (by simp [hg]))
    have h2 := frame_wire_length hw f.Leds (hall f (by simp)).2
    have h3 := (hall f (by simp)).1
    simp only [wireFormat] at h1 ⊢
    rw [List.flatMap_cons, List.length_append, h1, Frame.wire, h2, h3, List.length_cons]
    ring

theorem led?_some (m : LedMovie) (i j : Nat) (l : Led) (h : m.led? i j = some l) :
    ∃ f, m.Frames[i]? = some f ∧ f.Leds[j]? = some l := by
  unfold LedMovie.led? at h
  cases hf : m.Frames[i]? with
  | none => simp [hf] at h
  | some f => exact ⟨f, rfl, by simpa [hf] using h⟩

/-- Every pixel position of an accepted movie holds its channel bytes. -/
theorem marshal_get (a : Arch) (m : LedMovie) (buf : List Byte) (P : Nat) (hasWhite : Bool)
    (h : m.Marshal a = .ok buf) (hu : Uniform P hasWhite m.Frames)
    (i j c : Nat) (l : Led) (hl : m.led? i j = some l) (hc : c < pixelWidth hasWhite) :
    buf[(i * P + j) * pixelWidth hasWhite + c]? = (l.wire hasWhite)[c]? := by
  obtain ⟨n, b, hn, hne, hu2, -, -, hbuf⟩ := (marshal_ok_iff a m buf).1 h
  obtain ⟨hP, hb⟩ := uniform_unique m.Frames n P b hasWhite hn hne hu2 hu
  subst hP hb hbuf
  obtain ⟨f, hf, hl2⟩ := led?_some m i j l hl
  exact wireFormat_get hasWhite P m.Frames (uniform_noNil P hasWhite _ hu) i j c f l hf hl2 hc

/-! ## The movie whose size is not a 32-bit `int` -/

theorem uniform_replicate (F P : Nat) (l : Led) (b : Bool) (h : l.HasWhite = .ok b) :
    Uniform P b (List.replicate F ⟨List.replicate P l⟩) := by
  intro f hf
  have hf2 := List.eq_of_mem_replicate hf
  subst hf2
  refine ⟨List.length_replicate P l, ?_⟩
  intro x hx
  rw [List.eq_of_mem_replicate hx]
  exact h

theorem wideMovie_uniform : Uniform 21846 false wideMovie.Frames :=
  uniform_replicate 65536 21846 _ false rfl

theorem wideMovie_length : wideMovie.Frames.length = 65536 :=
  List.length_replicate 65536 _

theorem wideMovie_ne : wideMovie.Frames ≠ [] := by
  intro h
  have h2 := congrArg List.length h
  rw [wideMovie_length] at h2
  exact absurd h2 (by decide)

theorem wideMovie_valid : wideMovie.Valid :=
  (valid_iff_uniform wideMovie).2 ⟨21846, false, by decide, wideMovie_ne, wideMovie_uniform⟩

theorem wideMovie_noNil : wideMovie.NoNilLed :=
  fun f hf => (uniform_noNil 21846 false _ wideMovie_uniform f hf).2

/-- On a 32-bit platform the size of the wide movie wraps to 131072, `make`
allocates 131072 bytes, and the fill loop panics at index 131072. -/
theorem wideMovie_panic :
    wideMovie.Marshal i386 = .panic (.indexOutOfRange 131072 131072) := by
  have h := marshal_uniform i386 wideMovie.Frames 21846 false (by decide) wideMovie_ne
    wideMovie_uniform
  rw [wideMovie_length] at h
  have hw : i386.wrap (65536 * 21846 * pixelWidth false) = 131072 := by
    norm_num [Arch.wrap, Arch.modulus, i386, pixelWidth]
  have hx : i386.maxInt = 2147483647 := rfl
  have hy : i386.maxAlloc = 4294967295 := rfl
  rw [hw, hx, hy] at h
  have hm : (LedMovie.mk wideMovie.Frames) = wideMovie := rfl
  rw [hm] at h
  rw [h]
  norm_num [pixelWidth]

/-! ## The claims on `LedMovie.Marshal` -/

/-- C1: for a movie that `Marshal` accepts, of frames of `P` pixels each that
all report `HasWhite = hasWhite`, the returned buffer has exactly
`F * P * w` bytes (`w = 3` for RGB, `4` for RGBW), it is the concatenation,
frame by frame and pixel by pixel, of the pixels' channel bytes, and the bytes
at `(i * P + j) * w`, `+ 1`, `+ 2` (and `+ 3` when `w = 4`) are the red, green,
blue (and white) values of pixel `j` of frame `i`. -/
theorem Marshal_layout (a : Arch) (m : LedMovie) (buf : List Byte) (P : Nat)
    (hasWhite : Bool)
    (hP : ∀ f ∈ m.Frames, f.Leds.length = P)
    (hW : ∀ f ∈ m.Frames, ∀ l ∈ f.Leds, l.HasWhite = .ok hasWhite)
    (h : m.Marshal a = .ok buf) :
    buf.length = m.Frames.length * P * pixelWidth hasWhite ∧
    buf = wireFormat hasWhite m.Frames ∧
    ∀ i j l, m.led? i j = some l →
      ∃ r g b w, l.Red = .ok r ∧ l.Green = .ok g ∧ l.Blue = .ok b ∧ l.White = .ok w ∧
        buf[(i * P + j) * pixelWidth hasWhite]? = some r ∧
        buf[(i * P + j) * pixelWidth hasWhite + 1]? = some g ∧
        buf[(i * P + j) * pixelWidth hasWhite + 2]? = some b ∧
        (hasWhite = true → buf[(i * P + j) * pixelWidth hasWhite + 3]? = some w) := by
  have hu : Uniform P hasWhite m.Frames := fun f hf => ⟨hP f hf, hW f hf⟩
  obtain ⟨n, b, hn, hne, hu2, -, -, hbuf⟩ := (marshal_ok_iff a m buf).1 h
  obtain ⟨e1, e2⟩ := uniform_unique m.Frames n P b hasWhite hn hne hu2 hu
  subst e1 e2
  refine ⟨?_, hbuf, ?_⟩
  · rw [hbuf]
    exact wireFormat_length hasWhite P m.Frames (uniform_noNil P hasWhite _ hu)
  · intro i j l hl
    obtain ⟨f, hf, hl2⟩ := led?_some m i j l hl
    have hnl : l ≠ Led.nil :=
      ne_nil_of_hasWhite l hasWhite (hW f (List.getElem?_mem hf) l (List.getElem?_mem hl2))
    obtain ⟨r, g, b, w, hR, hG, hB, hWh, w1, w2⟩ := led_channels l hnl
    refine ⟨r, g, b, w, hR, hG, hB, hWh, ?_⟩
    have get := fun c hc => marshal_get a m buf P hasWhite h hu i j c l hl hc
    cases hasWhite with
    | false =>
      have g0 := get 0 (by decide)
      have g1 := get 1 (by decide)
      have g2 := get 2 (by decide)
      rw [w2] at g0 g1 g2
      exact ⟨by simpa using g0, by simpa using g1, by simpa using g2, by simp⟩
    | true =>
      have g0 := get 0 (by decide)
      have g1 := get 1 (by decide)
      have g2 := get 2 (by decide)
      have g3 := get 3 (by decide)
      rw [w1] at g0 g1 g2 g3
      exact ⟨by simpa using g0, by simpa using g1, by simpa using g2,
        fun _ => by simpa using g3⟩

/-- C1, the two examples of the specification: the RGB frame (255,0,0),
(0,255,0), (0,0,255) gives FF 00 00 00 FF 00 00 00 FF and the RGBW pixel
(10,20,30,40) gives 0A 14 1E 28, on a 64-bit and on a 32-bit platform; both
buffers have the stated length and are the concatenation of the pixel bytes. -/
theorem Marshal_layout_witness :
    rgbMovie.Marshal amd64 = .ok [255, 0, 0, 0, 255, 0, 0, 0, 255] ∧
    rgbwMovie.Marshal i386 = .ok [10, 20, 30, 40] ∧
    ([255, 0, 0, 0, 255, 0, 0, 0, 255] : List Byte).length
      = rgbMovie.Frames.length * 3 * pixelWidth false ∧
    ([255, 0, 0, 0, 255, 0, 0, 0, 255] : List Byte) = wireFormat false rgbMovie.Frames ∧
    ([10, 20, 30, 40] : List Byte).length = rgbwMovie.Frames.length * 1 * pixelWidth true ∧
    ([10, 20, 30, 40] : List Byte) = wireFormat true rgbwMovie.Frames :=
  ⟨by decide, by decide,
    (Marshal_layout amd64 rgbMovie _ 3 false (by decide) (by decide) (by decide)).1,
    (Marshal_layout amd64 rgbMovie _ 3 false (by decide) (by decide) (by decide)).2.1,
    (Marshal_layout i386 rgbwMovie _ 1 true (by decide) (by decide) (by decide)).1,
    (Marshal_layout i386 rgbwMovie _ 1 true (by decide) (by decide) (by decide)).2.1⟩

/-- C2 as stated fails, in two ways.  The movie whose single frame holds one nil
pixel is not valid, yet `Marshal` returns neither a buffer nor an error: it
panics when it calls `HasWhite` on the nil interface value.  The movie of 65536
frames of the same 21846 RGB pixels is valid, yet on a 32-bit platform
`Marshal` returns no buffer: the size `65536 * 21846 * 3` wraps to `131072`
and the write at index `131072` panics. -/
theorem Marshal_contract_counterexample :
    (nilPixelMovie.Marshal amd64 = .panic .nilDereference ∧
      ¬ MarshalContract amd64 nilPixelMovie) ∧
    (wideMovie.Valid ∧ wideMovie.Marshal i386 = .panic (.indexOutOfRange 131072 131072) ∧
      ¬ MarshalContract i386 wideMovie) := by
  refine ⟨⟨by decide, ?_⟩, wideMovie_valid, wideMovie_panic, ?_⟩
  · rintro ⟨_, h2⟩
    have hnv : ¬ nilPixelMovie.Valid := by
      rintro ⟨_, _, _, b, hb⟩
      have := hb ⟨[.nil]⟩ (by simp [nilPixelMovie]) Led.nil (by simp)
      simp [Led.HasWhite] at this
    obtain ⟨e, he⟩ := h2 hnv
    have hp : nilPixelMovie.Marshal amd64 = .panic .nilDereference := by decide
    rw [hp] at he
    cases he
  · rintro ⟨h1, _⟩
    obtain ⟨buf, hb⟩ := h1.2 wideMovie_valid
    rw [wideMovie_panic] at hb
    cases hb

/-- C2, amended: `Marshal` returns a buffer and no error if and only if the
movie has at least one frame, every frame has at least one pixel, all frames
have the same pixel count, all pixels report the same `HasWhite` value, and the
buffer size `F * P * w` is an `int` that `make` can allocate; a movie that
lacks one of the first four properties is rejected with an error and no buffer,
unless validation calls `HasWhite` on a nil pixel before it meets the
defect. -/
theorem Marshal_contract_fits (a : Arch) (m : LedMovie) :
    ((∃ buf, m.Marshal a = .ok buf) ↔ m.Valid ∧ m.Fits a) ∧
    (¬ m.Valid → ¬ m.NilReached → ∃ e, m.Marshal a = .error e) :=
  ⟨marshal_ok_iff_valid a m, marshal_invalid a m⟩

/-- C2, amended, on examples: the RGB example movie is valid and fits, so it is
marshalled; the movie with frames of 1, 2 and 0 pixels is not valid and has no
nil pixel, so it is rejected with an error. -/
theorem Marshal_contract_fits_witness :
    (∃ buf, rgbMovie.Marshal amd64 = .ok buf) ∧
    (∃ e, lateEmptyFrameMovie.Marshal i386 = .error e) :=
  ⟨(Marshal_contract_fits amd64 rgbMovie).1.2
      ⟨(valid_iff_uniform rgbMovie).2 ⟨3, false, by decide, by decide, by decide⟩,
        by decide⟩,
   (Marshal_contract_fits i386 lateEmptyFrameMovie).2
      (fun h => h.2.1 ⟨[]⟩ (by decide) rfl)
      (noNil_not_nilReached _ (by decide))⟩

/-- C5 as stated fails: in the movie with frames of 1, 2 and 0 pixels some
frame has zero pixels, but `Marshal` fails with the inconsistent-LED-count
error raised at frame 1, not with the empty-frame error. -/
theorem Marshal_emptyFrame_counterexample :
    lateEmptyFrameMovie.Marshal amd64 = .error errLedCount ∧
    ¬ EmptyFrameRejected amd64 lateEmptyFrameMovie := by
  refine ⟨by decide, ?_⟩
  intro h
  obtain ⟨i, hi, _⟩ := h ⟨⟨[]⟩, by simp [lateEmptyFrameMovie], rfl⟩
  have hp : lateEmptyFrameMovie.Marshal amd64 = .error errLedCount := by decide
  rw [hp] at hi
  simp [errLedCount, errEmptyFrame] at hi

/-- C5, amended: if frame `k` of a movie has zero pixels and the frames before
it all have the same non-zero pixel count `n` and pixels that all report the
same `HasWhite` value `b`, then `Marshal` fails with the empty-frame error and
the index the error names is `k`. -/
theorem Marshal_emptyFrame_first (a : Arch) (m : LedMovie) (k : Nat) (f : Frame) (n : Nat)
    (b : Bool) (hk : m.Frames[k]? = some f) (h0 : f.Leds = []) (hn : 0 < n)
    (hu : Uniform n b (m.Frames.take k)) :
    m.Marshal a = .error (errEmptyFrame k) := by
  obtain ⟨hsplit, hlen⟩ := split_at_getElem? m.Frames k f hk
  obtain ⟨s, hs⟩ := checkFrames_uniform_ok _ n b hn hu
  have hne : m.Frames.length ≠ 0 := by
    have := (List.getElem?_eq_some.1 hk).1
    omega
  have hc : checkFrames 0 m.Frames ⟨none, none⟩ = .error (errEmptyFrame k) := by
    rw [hsplit, checkFrames_append, hs, Result.bind_ok, hlen]
    simp [checkFrames, h0]
  simp only [LedMovie.Marshal, beq_iff_eq, hne, if_false, hc, Result.bind_error]

/-- C5, amended, on an example: two frames of two RGB pixels followed by an
empty frame are rejected with the empty-frame error naming index 2. -/
theorem Marshal_emptyFrame_first_witness :
    emptyThirdFrameMovie.Marshal amd64 = .error (errEmptyFrame 2) :=
  Marshal_emptyFrame_first amd64 emptyThirdFrameMovie 2 ⟨[]⟩ 2 false (by decide) rfl (by decide)
    (by decide)

/-- C6 as stated fails: for a frame of one RGB pixel followed by a frame of two
RGBW pixels `Marshal` fails with the inconsistent-LED-count error, not with the
mixed-pixel-format error. -/
theorem Marshal_mixed_counterexample :
    (LedMovie.mk [rgbFrame1, rgbwFrame2]).Marshal amd64 = .error errLedCount ∧
    ¬ MixedFormatRejected amd64 rgbFrame1 rgbwFrame2 := by
  refine ⟨by decide, ?_⟩
  intro h
  have := h (by decide) (by decide) (Or.inl ⟨by decide, by decide⟩)
  have hp : (LedMovie.mk [rgbFrame1, rgbwFrame2]).Marshal amd64 = .error errLedCount := by
    decide
  rw [hp] at this
  simp [errLedCount, errWhiteMix] at this

/-- C6, amended: for every movie made of exactly two frames with the same
number of pixels, at least one each, where one frame holds only RGB pixels and
the other only RGBW pixels, `Marshal` fails with the mixed-pixel-format error,
whichever of the two frames comes first. -/
theorem Marshal_mixed_sameCount (arch : Arch) (a b : Frame)
    (hlen : a.Leds.length = b.Leds.length)
    (ha : a.Leds ≠ []) (hb : b.Leds ≠ []) (hmix : OneRgbOneRgbw a b) :
    (LedMovie.mk [a, b]).Marshal arch = .error errWhiteMix := by
  obtain ⟨la⟩ := a
  obtain ⟨lb⟩ := b
  simp only at hlen ha hb
  cases la with
  | nil => exact absurd rfl ha
  | cons x xs =>
    cases lb with
    | nil => exact absurd rfl hb
    | cons y ys =>
      have hlen2 : xs.length = ys.length := by simpa using hlen
      have key : ∀ c : Bool, AllWhite c (x :: xs) → AllWhite (!c) (y :: ys) →
          (LedMovie.mk [⟨x :: xs⟩, ⟨y :: ys⟩]).Marshal arch = .error errWhiteMix := by
        intro c h1 h2
        have hx : checkLeds (x :: xs) none = .ok (some c) :=
          (checkLeds_none_ok x xs _).2 ⟨c, rfl, h1⟩
        have hy : y.HasWhite = .ok (!c) := h2 y (by simp)
        simp only [LedMovie.Marshal, checkFrames, checkCount, hx, Result.bind_ok,
          List.length_cons, hlen2]
        cases c <;> simp [checkLeds, hy]
      rcases hmix with ⟨h1, h2⟩ | ⟨h1, h2⟩
      · exact key false h1 h2
      · exact key true h1 h2

/-- C6, amended, on examples: one RGB pixel then one RGBW pixel, and the same
two frames in the other order, are both rejected with the mixed-format
error. -/
theorem Marshal_mixed_sameCount_witness :
    (LedMovie.mk [rgbFrame1, rgbwFrame1]).Marshal amd64 = .error errWhiteMix ∧
    (LedMovie.mk [rgbwFrame1, rgbFrame1]).Marshal i386 = .error errWhiteMix :=
  ⟨Marshal_mixed_sameCount amd64 rgbFrame1 rgbwFrame1 (by decide) (by decide) (by decide)
      (Or.inl ⟨by decide, by decide⟩),
   Marshal_mixed_sameCount i386 rgbwFrame1 rgbFrame1 (by decide) (by decide) (by decide)
      (Or.inr ⟨by decide, by decide⟩)⟩

/-- C9 as stated fails: the movie of 65536 frames of the same 21846 RGB pixels
has no nil pixel, and on a 32-bit platform `Marshal` ends with a panic: the
buffer size `65536 * 21846 * 3 = 2 ^ 32 + 131072` wraps to `131072`, `make`
allocates 131072 bytes, and the write at index `131072` is out of range. -/
theorem Marshal_no_fault_counterexample :
    wideMovie.NoNilLed ∧
    wideMovie.Marshal i386 = .panic (.indexOutOfRange 131072 131072) ∧
    ¬ ((∃ buf, wideMovie.Marshal i386 = .ok buf) ∨
       (∃ e, wideMovie.Marshal i386 = .error e)) := by
  refine ⟨wideMovie_noNil, wideMovie_panic, ?_⟩
  rw [wideMovie_panic]
  rintro (⟨_, h⟩ | ⟨_, h⟩) <;> cases h

/-- C9, amended: for every movie whose pixels are RGB or RGBW values (none is
nil) and whose buffer size `F * P * w`, when the movie is valid, is an `int`
that `make` can allocate, `Marshal` ends by returning a buffer or an error and
never by a panic; when the validation loop finishes without error on a
non-empty movie the format reference `prevHasWhite` is set, `make` returns the
buffer, and the fill loop, which panics on any write at a negative index or at
or beyond the length of the buffer, runs to its end. -/
theorem Marshal_no_fault (a : Arch) (m : LedMovie) (h : m.NoNilLed)
    (hfit : m.Valid → m.Fits a) :
    ((∃ buf, m.Marshal a = .ok buf) ∨ (∃ e, m.Marshal a = .error e)) ∧
    (∀ p, m.Marshal a ≠ .panic p) ∧
    (∀ s first rest, m.Frames = first :: rest →
      checkFrames 0 m.Frames ⟨none, none⟩ = .ok s →
      ∃ hasWhite, s.prevHasWhite = some hasWhite ∧
        ∃ buf0 buf,
          makeslice a
            (a.wrap (m.Frames.length * first.Leds.length * (if hasWhite then 4 else 3)))
            = .ok buf0 ∧
          fillFrames a hasWhite (if hasWhite then 4 else 3) 0 m.Frames buf0 = .ok buf) := by
  have hret : (∃ buf, m.Marshal a = .ok buf) ∨ (∃ e, m.Marshal a = .error e) := by
    by_cases hv : m.Valid
    · exact Or.inl ((marshal_ok_iff_valid a m).2 ⟨hv, hfit hv⟩)
    · exact Or.inr (marshal_invalid a m hv (noNil_not_nilReached m h))
  refine ⟨hret, ?_, ?_⟩
  · intro p hp
    rw [hp] at hret
    rcases hret with ⟨_, h1⟩ | ⟨_, h1⟩ <;> cases h1
  · intro s first rest hfr hs
    rw [hfr] at hs
    obtain ⟨n, b, hn, hs2, hu⟩ := (checkFrames_init_ok first rest 0 s).1 hs
    rw [← hfr] at hu
    have hne : m.Frames ≠ [] := by rw [hfr]; simp
    have hv : m.Valid := (valid_iff_uniform m).2 ⟨n, b, hn, hne, hu⟩
    obtain ⟨f1, f2⟩ := hfit hv
    rw [wireSize_uniform m n b hn hne hu] at f1 f2
    have hf : first.Leds.length = n := (hu first (by simp [hfr])).1
    have hpw : (if b = true then 4 else 3) = pixelWidth b := rfl
    refine ⟨b, by rw [hs2], List.replicate (m.Frames.length * n * pixelWidth b) 0, ?_⟩
    have hfill := fillFrames_spec a b n m.Frames 0 []
      (List.replicate (m.Frames.length * n * pixelWidth b) 0)
      (uniform_noNil n b _ hu) (by simp) (by simpa using f1)
    simp only [List.nil_append, List.length_replicate, Nat.le_refl, if_true] at hfill
    refine ⟨_, ?_, by rw [hpw]; exact hfill⟩
    rw [hf, hpw, a.wrap_small _ (by omega)]
    have hmk : ¬ (a.maxInt < m.Frames.length * n * pixelWidth b ∨
        a.maxAlloc < m.Frames.length * n * pixelWidth b) := by omega
    simp only [makeslice, hmk, if_false]

/-- C9, amended, on an example: the RGBW example movie has no nil pixel, its
4 bytes fit on a 32-bit platform, and it is marshalled without panic. -/
theorem Marshal_no_fault_witness :
    rgbwMovie.NoNilLed ∧ rgbwMovie.Fits i386 ∧
    rgbwMovie.Marshal i386 ≠ .panic .nilDereference :=
  ⟨by decide, by decide,
   (Marshal_no_fault i386 rgbwMovie (by decide) (fun _ => by decide)).2.1 _⟩

/-- C10: if `Marshal` accepts two movies with the same number of frames, the
same number `P` of pixels per frame and the same `HasWhite` value, and returns
the same bytes for both, then at every frame index and pixel index the two
movies have the same red, green and blue values, and for RGBW the same white
value. -/
theorem Marshal_injective (a : Arch) (m1 m2 : LedMovie) (buf : List Byte) (P : Nat)
    (hasWhite : Bool)
    (h1 : m1.Marshal a = .ok buf) (h2 : m2.Marshal a = .ok buf)
    (_hF : m1.Frames.length = m2.Frames.length)
    (hu1 : Uniform P hasWhite m1.Frames) (hu2 : Uniform P hasWhite m2.Frames) :
    ∀ i j l1 l2, m1.led? i j = some l1 → m2.led? i j = some l2 →
      l1.Red = l2.Red ∧ l1.Green = l2.Green ∧ l1.Blue = l2.Blue ∧
      (hasWhite = true → l1.White = l2.White) := by
  intro i j l1 l2 hl1 hl2
  obtain ⟨f1, hf1, hp1⟩ := led?_some m1 i j l1 hl1
  obtain ⟨f2, hf2, hp2⟩ := led?_some m2 i j l2 hl2
  have n1 : l1 ≠ Led.nil :=
    (uniform_noNil P hasWhite _ hu1 f1 (List.getElem?_mem hf1)).2 l1 (List.getElem?_mem hp1)
  have n2 : l2 ≠ Led.nil :=
    (uniform_noNil P hasWhite _ hu2 f2 (List.getElem?_mem hf2)).2 l2 (List.getElem?_mem hp2)
  have key : ∀ c, c < pixelWidth hasWhite → (l1.wire hasWhite)[c]? = (l2.wire hasWhite)[c]? :=
    fun c hc => by
      rw [← marshal_get a m1 buf P hasWhite h1 hu1 i j c l1 hl1 hc,
        ← marshal_get a m2 buf P hasWhite h2 hu2 i j c l2 hl2 hc]
  obtain ⟨r, g, b, w, hR, hG, hB, hW, a1, a2⟩ := led_channels l1 n1
  obtain ⟨r', g', b', w', hR', hG', hB', hW', a1', a2'⟩ := led_channels l2 n2
  rw [hR, hG, hB, hW, hR', hG', hB', hW']
  cases hasWhite with
  | false =>
    have k0 := key 0 (by decide)
    have k1 := key 1 (by decide)
    have k2 := key 2 (by decide)
    rw [a2, a2'] at k0 k1 k2
    simp only [List.getElem?_cons_zero, List.getElem?_cons_succ, Option.some.injEq] at k0 k1 k2
    subst k0 k1 k2
    simp
  | true =>
    have k0 := key 0 (by decide)
    have k1 := key 1 (by decide)
    have k2 := key 2 (by decide)
    have k3 := key 3 (by decide)
    rw [a1, a1'] at k0 k1 k2 k3
    simp only [List.getElem?_cons_zero, List.getElem?_cons_succ, Option.some.injEq]
      at k0 k1 k2 k3
    subst k0 k1 k2 k3
    simp

/-- C10 on an example: the two-frame RGBW movie is accepted with the 16 bytes
shown, and pixel 0 of frame 1 is recovered from them. -/
theorem Marshal_injective_witness :
    rgbwMovie2.Marshal amd64 = .ok [1, 2, 3, 4, 5, 6, 7, 8, 9, 10, 11, 12, 13, 14, 15, 16] ∧
    Uniform 2 true rgbwMovie2.Frames ∧
    rgbwMovie2.led? 1 0 = some (.rgbw (NewRgbwLed 9 10 11 12)) ∧
    ((Led.rgbw (NewRgbwLed 9 10 11 12)).Red = (Led.rgbw (NewRgbwLed 9 10 11 12)).Red ∧
     (Led.rgbw (NewRgbwLed 9 10 11 12)).Green = (Led.rgbw (NewRgbwLed 9 10 11 12)).Green ∧
     (Led.rgbw (NewRgbwLed 9 10 11 12)).Blue = (Led.rgbw (NewRgbwLed 9 10 11 12)).Blue ∧
     (true = true →
      (Led.rgbw (NewRgbwLed 9 10 11 12)).White = (Led.rgbw (NewRgbwLed 9 10 11 12)).White)) :=
  ⟨by decide, by decide, by decide,
   Marshal_injective amd64 rgbwMovie2 rgbwMovie2
    [1, 2, 3, 4, 5, 6, 7, 8, 9, 10, 11, 12, 13, 14, 15, 16] 2 true
    (by decide) (by decide) rfl (by decide) (by decide) 1 0 _ _ (by decide) (by decide)⟩

/-! ## The claims on the protocol functions -/

theorem getOpts_withHost (host : String) :
    getOpts [some (WithHost host)] = ({ withHost := host, withContentType := "" }, none) := rfl

theorem getOpts_nil : getOpts [] = ({ withHost := "", withContentType := "" }, none) := rfl

theorem getOpts_octet :
    getOpts [some (WithContentType "application/octet-stream")]
      = ({ withHost := "", withContentType := "application/octet-stream" }, none) := rfl

/-- What `Login` called with `WithHost host` returns, case by case. -/
theorem login_cases (host : String) (rand : Except Error (List Byte))
    (b64 : List Byte → String) (loginNet : RoundTrip LoginResponse)
    (verifyNet : RoundTrip VerifyResponse) :
    ((∃ e, (Login [some (WithHost host)] rand b64 loginNet verifyNet).1 = .error e) ∧
      ¬ (∃ ch t, rand = .ok ch ∧ HandshakeOk host loginNet verifyNet t)) ∨
    (∃ ch t, rand = .ok ch ∧ HandshakeOk host loginNet verifyNet t ∧
      (Login [some (WithHost host)] rand b64 loginNet verifyNet).1 = .ok ⟨host, t⟩) := by
  by_cases hh : host = ""
  · left
    refine ⟨by simp [Login, getOpts_withHost, hh], ?_⟩
    rintro ⟨_, _, _, h, _⟩
    exact h hh
  cases rand with
  | error e =>
    left
    refine ⟨by simp [Login, getOpts_withHost, hh], ?_⟩
    rintro ⟨_, _, h, _⟩
    cases h
  | ok ch =>
    cases loginNet with
    | createFailed e =>
      left
      refine ⟨by simp [Login, getOpts_withHost, hh], ?_⟩
      rintro ⟨_, _, _, _, lr, vr, h, _⟩
      cases h
    | sendFailed e =>
      left
      refine ⟨by simp [Login, getOpts_withHost, hh], ?_⟩
      rintro ⟨_, _, _, _, lr, vr, h, _⟩
      cases h
    | decodeFailed e =>
      left
      refine ⟨by simp [Login, getOpts_withHost, hh], ?_⟩
      rintro ⟨_, _, _, _, lr, vr, h, _⟩
      cases h
    | decoded lr =>
      by_cases ht : lr.AuthenticationToken = ""
      · left
        refine ⟨by simp [Login, getOpts_withHost, hh, ht], ?_⟩
        rintro ⟨_, _, _, _, lr2, vr, h, _, h3, _⟩
        cases h
        exact h3 ht
      by_cases hc : lr.ChallengeResponse = ""
      · left
        refine ⟨by simp [Login, getOpts_withHost, hh, ht, hc], ?_⟩
        rintro ⟨_, _, _, _, lr2, vr, h, _, _, h4, _⟩
        cases h
        exact h4 hc
      by_cases hcode : lr.Code = CodeOk
      swap
      · left
        refine ⟨by simp [Login, getOpts_withHost, hh, ht, hc, hcode], ?_⟩
        rintro ⟨_, _, _, _, lr2, vr, h, _, _, _, h5, _⟩
        cases h
        exact hcode h5
      cases verifyNet with
      | createFailed e =>
        left
        refine ⟨by simp [Login, getOpts_withHost, hh, ht, hc, hcode, Client.doRequest,
          getOpts_nil], ?_⟩
        rintro ⟨_, _, _, _, lr2, vr, _, h, _⟩
        cases h
      | sendFailed e =>
        left
        refine ⟨by simp [Login, getOpts_withHost, hh, ht, hc, hcode, Client.doRequest,
          getOpts_nil], ?_⟩
        rintro ⟨_, _, _, _, lr2, vr, _, h, _⟩
        cases h
      | decodeFailed e =>
        left
        refine ⟨by simp [Login, getOpts_withHost, hh, ht, hc, hcode, Client.doRequest,
          getOpts_nil], ?_⟩
        rintro ⟨_, _, _, _, lr2, vr, _, h, _⟩
        cases h
      | decoded vr =>
        by_cases hv : vr.Code = CodeOk
        · right
          refine ⟨ch, lr.AuthenticationToken, rfl, ⟨hh, lr, vr, rfl, rfl, ht, hc, hcode, hv, rfl⟩,
            ?_⟩
          simp [Login, getOpts_withHost, hh, ht, hc, hcode, hv, Client.doRequest, getOpts_nil]
        · left
          refine ⟨by simp [Login, getOpts_withHost, hh, ht, hc, hcode, hv, Client.doRequest,
            getOpts_nil], ?_⟩
          rintro ⟨_, _, _, _, lr2, vr2, _, h, _, _, _, h6, _⟩
          cases h
          exact hv h6

/-- C3: `Login` called with `WithHost host` returns a client only if the host
is non-empty, the login response has a non-empty token, a non-empty
challenge-response and code 1000, and the verify response has code 1000; the
client then has the given host and the login response's token.  In every other
case `Login` returns an error and no client.  When the random challenge could
be drawn and the conditions hold, the client is returned. -/
theorem Login_contract (host : String) (rand : Except Error (List Byte))
    (b64 : List Byte → String) (loginNet : RoundTrip LoginResponse)
    (verifyNet : RoundTrip VerifyResponse) :
    (∀ c, (Login [some (WithHost host)] rand b64 loginNet verifyNet).1 = .ok c →
      HandshakeOk host loginNet verifyNet c.AuthenticationToken ∧ c.ValidatedHost = host) ∧
    ((¬ ∃ t, HandshakeOk host loginNet verifyNet t) →
      ∃ e, (Login [some (WithHost host)] rand b64 loginNet verifyNet).1 = .error e) ∧
    (∀ ch t, rand = .ok ch → HandshakeOk host loginNet verifyNet t →
      (Login [some (WithHost host)] rand b64 loginNet verifyNet).1 = .ok ⟨host, t⟩) := by
  rcases login_cases host rand b64 loginNet verifyNet with ⟨⟨e, he⟩, hno⟩ | ⟨ch, t, hr, hok, hl⟩
  · refine ⟨?_, fun _ => ⟨e, he⟩, ?_⟩
    · intro c hc
      rw [he] at hc
      cases hc
    · intro ch t hr hok
      exact absurd ⟨ch, t, hr, hok⟩ hno
  · refine ⟨?_, fun hno => absurd ⟨t, hok⟩ hno, ?_⟩
    · intro c hc
      rw [hl] at hc
      injection hc with hc
      subst hc
      exact ⟨hok, rfl⟩
    · intro ch2 t2 _ hok2
      obtain ⟨_, lr, vr, h1, _, _, _, _, _, h7⟩ := hok
      obtain ⟨_, lr2, vr2, h1', _, _, _, _, _, h7'⟩ := hok2
      rw [h1] at h1'
      injection h1' with h1'
      subst h1'
      rw [← h7', h7]
      exact hl

/-- C3, the example of the specification: the login response
`{token "abc", challenge-response "xyz", code 1000}` followed by the verify
response `{code 1000}` yields the client with that host and token "abc"; with
the verify response `{code 1001}` an error is returned. -/
theorem Login_contract_witness :
    (Login [some (WithHost "192.168.10.74")] (.ok []) (fun _ => "")
      (.decoded ⟨"abc", "xyz", 1000⟩) (.decoded ⟨1000⟩)).1 = .ok ⟨"192.168.10.74", "abc"⟩ ∧
    (∃ e, (Login [some (WithHost "192.168.10.74")] (.ok []) (fun _ => "")
      (.decoded ⟨"abc", "xyz", 1000⟩) (.decoded ⟨1001⟩)).1 = .error e) :=
  ⟨(Login_contract "192.168.10.74" (.ok []) (fun _ => "") (.decoded ⟨"abc", "xyz", 1000⟩)
      (.decoded ⟨1000⟩)).2.2 [] "abc" rfl
      ⟨by decide, _, _, rfl, rfl, by decide, by decide, rfl, rfl, rfl⟩,
   (Login_contract "192.168.10.74" (.ok []) (fun _ => "") (.decoded ⟨"abc", "xyz", 1000⟩)
      (.decoded ⟨1001⟩)).2.1 (by
        rintro ⟨t, _, lr, vr, _, h, _, _, _, h6, _⟩
        cases h
        simp at h6)⟩

/-- The requests `UploadFullMovie` hands to the HTTP client: none, the upload
alone, or the upload followed by the movie-config request computed from the
movie. -/
theorem upload_trace (c : Client) (a : Arch) (m : LedMovie)
    (up : RoundTrip UploadFullMovieResponse) (cfg : RoundTrip GenericCodeResponse) :
    (c.UploadFullMovie a m up cfg).2 = [] ∨
    ∃ buf first rest, m.Marshal a = .ok buf ∧ m.Frames = first :: rest ∧
      ((c.UploadFullMovie a m up cfg).2 = [uploadRequest c buf] ∨
       (c.UploadFullMovie a m up cfg).2 = [uploadRequest c buf,
          configRequest c ⟨((1000 / m.Frames.length : Nat) : Int), first.Leds.length,
            m.Frames.length⟩]) := by
  cases hm : m.Marshal a with
  | error e => left; simp [Client.UploadFullMovie, hm]
  | panic q => left; simp [Client.UploadFullMovie, hm]
  | ok buf =>
    obtain ⟨n, b, hn, hne, hu⟩ := uniform_of_marshal a m buf hm
    cases hfr : m.Frames with
    | nil => exact absurd hfr hne
    | cons first rest =>
      cases up with
      | createFailed e =>
        left; simp [Client.UploadFullMovie, hm, Client.doRequest, getOpts_octet]
      | sendFailed e =>
        right
        refine ⟨buf, first, rest, rfl, rfl, Or.inl ?_⟩
        simp [Client.UploadFullMovie, hm, Client.doRequest, getOpts_octet, uploadRequest]
      | decodeFailed e =>
        right
        refine ⟨buf, first, rest, rfl, rfl, Or.inl ?_⟩
        simp [Client.UploadFullMovie, hm, Client.doRequest, getOpts_octet, uploadRequest]
      | decoded resp =>
        right
        refine ⟨buf, first, rest, rfl, rfl, ?_⟩
        by_cases hF : resp.FramesNumber = (rest.length : Int) + 1
        swap
        · left
          simp [Client.UploadFullMovie, hm, Client.doRequest, getOpts_octet, uploadRequest,
            hfr, hF]
        · cases cfg with
          | createFailed e =>
            left
            simp [Client.UploadFullMovie, hm, Client.doRequest, getOpts_octet, getOpts_nil,
              uploadRequest, hfr, hF]
          | sendFailed e =>
            right
            simp [Client.UploadFullMovie, hm, Client.doRequest, getOpts_octet, getOpts_nil,
              uploadRequest, configRequest, hfr, hF]
          | decodeFailed e =>
            right
            simp [Client.UploadFullMovie, hm, Client.doRequest, getOpts_octet, getOpts_nil,
              uploadRequest, configRequest, hfr, hF]
          | decoded r =>
            right
            by_cases hr : r.Code = CodeOk <;>
              simp [Client.UploadFullMovie, hm, Client.doRequest, getOpts_octet, getOpts_nil,
                uploadRequest, configRequest, hfr, hF, hr]

/-- C4, the failing input: the upload response carries code 1001 with the right
`frames_number`, the config response carries code 1000, and `UploadFullMovie`
returns no error, on a 64-bit and on a 32-bit platform; the `Code` of the
upload response is never examined. -/
theorem UploadFullMovie_ignores_upload_code (c : Client) :
    (c.UploadFullMovie amd64 rgbMovie (.decoded ⟨CodeError, 1⟩) (.decoded ⟨CodeOk⟩)).1
      = .ok () ∧
    (c.UploadFullMovie i386 rgbMovie (.decoded ⟨CodeError, 1⟩) (.decoded ⟨CodeOk⟩)).1
      = .ok () ∧
    CodeError ≠ CodeOk := by
  have hm : rgbMovie.Marshal amd64 = .ok [255, 0, 0, 0, 255, 0, 0, 0, 255] := by decide
  have hm2 : rgbMovie.Marshal i386 = .ok [255, 0, 0, 0, 255, 0, 0, 0, 255] := by decide
  refine ⟨?_, ?_, by decide⟩
  · simp [Client.UploadFullMovie, hm, Client.doRequest, getOpts_octet, getOpts_nil]
    simp [rgbMovie]
  · simp [Client.UploadFullMovie, hm2, Client.doRequest, getOpts_octet, getOpts_nil]
    simp [rgbMovie]

/-- C7: whenever `UploadFullMovie` sends the movie-config request, the movie has
at least one frame, the request carries `frame_delay = 1000 div F`,
`leds_number = P` (the pixel count of the first frame) and `frames_number = F`,
and the request sent just before it uploaded the buffer returned by `Marshal`,
whose length is `F * P * 3` or `F * P * 4`. -/
theorem UploadFullMovie_config (c : Client) (a : Arch) (m : LedMovie)
    (up : RoundTrip UploadFullMovieResponse) (cfg : RoundTrip GenericCodeResponse)
    (r : HttpRequest) (hr : r ∈ (c.UploadFullMovie a m up cfg).2)
    (hp : r.path = "/xled/v1/led/movie/config") :
    1 ≤ m.Frames.length ∧
    ∃ first buf, m.Frames.head? = some first ∧ m.Marshal a = .ok buf ∧
      r.body = .json (.movieConfig
        { FrameDelay := ((1000 / m.Frames.length : Nat) : Int),
          LedsNumber := first.Leds.length,
          FramesNumber := m.Frames.length }) ∧
      (c.UploadFullMovie a m up cfg).2 = [uploadRequest c buf, r] ∧
      (buf.length = m.Frames.length * first.Leds.length * 3 ∨
       buf.length = m.Frames.length * first.Leds.length * 4) := by
  rcases upload_trace c a m up cfg with h | ⟨buf, first, rest, hm, hfr, h | h⟩
  · rw [h] at hr; cases hr
  · rw [h] at hr
    simp only [List.mem_singleton] at hr
    subst hr
    simp [uploadRequest] at hp
  · rw [h] at hr
    simp only [List.mem_cons, List.mem_singleton, List.not_mem_nil, or_false] at hr
    rcases hr with hr | hr
    · subst hr
      simp [uploadRequest] at hp
    · subst hr
      obtain ⟨n, b, hn, hne, hu, -, -, hbuf⟩ := (marshal_ok_iff a m buf).1 hm
      have hlen := wireFormat_length b n m.Frames (uniform_noNil n b _ hu)
      have hf : first.Leds.length = n := (hu first (by simp [hfr])).1
      refine ⟨by simp [hfr], first, buf, by simp [hfr], hm, rfl, h, ?_⟩
      rw [hbuf, hlen, hf]
      cases b
      · left; rfl
      · right; rfl

/-- C7 on an example: for the RGB example movie (1 frame of 3 pixels) the
config request carries `frame_delay = 1000`, `leds_number = 3`,
`frames_number = 1` and follows the upload of the 9-byte buffer. -/
theorem UploadFullMovie_config_witness :
    configRequest exampleClient ⟨1000, 3, 1⟩ ∈
      (exampleClient.UploadFullMovie amd64 rgbMovie (.decoded ⟨1000, 1⟩) (.decoded ⟨1000⟩)).2 ∧
    1 ≤ rgbMovie.Frames.length ∧
    ∃ first buf, rgbMovie.Frames.head? = some first ∧ rgbMovie.Marshal amd64 = .ok buf ∧
      (configRequest exampleClient ⟨1000, 3, 1⟩).body = .json (.movieConfig
        { FrameDelay := ((1000 / rgbMovie.Frames.length : Nat) : Int),
          LedsNumber := first.Leds.length,
          FramesNumber := rgbMovie.Frames.length }) ∧
      (exampleClient.UploadFullMovie amd64 rgbMovie (.decoded ⟨1000, 1⟩) (.decoded ⟨1000⟩)).2
        = [uploadRequest exampleClient buf, configRequest exampleClient ⟨1000, 3, 1⟩] ∧
      (buf.length = rgbMovie.Frames.length * first.Leds.length * 3 ∨
       buf.length = rgbMovie.Frames.length * first.Leds.length * 4) :=
  ⟨by decide,
   UploadFullMovie_config exampleClient amd64 rgbMovie (.decoded ⟨1000, 1⟩) (.decoded ⟨1000⟩)
    (configRequest exampleClient ⟨1000, 3, 1⟩) (by decide) rfl⟩

/-- C8: for a LED movie that `Marshal` accepts, when the create-entry response
has code 1106 `CreateMovie` fails with the duplicate-identifier error naming
`m.UniqueId`; when it has any other code that is not 1000 `CreateMovie` fails
with the error-code error, which is a different error with a different
format string. -/
theorem CreateMovie_duplicate (c : Client) (a : Arch) (m : Movie) (l : LedMovie)
    (buf : List Byte) (fullNet : RoundTrip GenericCodeResponse) (h : l.Marshal a = .ok buf) :
    (c.CreateMovie a m l (.decoded ⟨1106⟩) fullNet).1
      = .error (.errorf "movie with unique ID %q already exists" [.str m.UniqueId]) ∧
    ∀ code : Code, code ≠ 1000 → code ≠ 1106 →
      (c.CreateMovie a m l (.decoded ⟨code⟩) fullNet).1
        = .error (.errorf "error code creating movie entry: %v" [.int code]) ∧
      (c.CreateMovie a m l (.decoded ⟨code⟩) fullNet).1
        ≠ (c.CreateMovie a m l (.decoded ⟨1106⟩) fullNet).1 := by
  have h1 : (c.CreateMovie a m l (.decoded ⟨1106⟩) fullNet).1
      = .error (.errorf "movie with unique ID %q already exists" [.str m.UniqueId]) := by
    simp [Client.CreateMovie, h, Client.doRequest, getOpts_nil, CodeDuplicateUniqueId]
  refine ⟨h1, fun code hok hdup => ?_⟩
  have h2 : (c.CreateMovie a m l (.decoded ⟨code⟩) fullNet).1
      = .error (.errorf "error code creating movie entry: %v" [.int code]) := by
    simp [Client.CreateMovie, h, Client.doRequest, getOpts_nil, CodeDuplicateUniqueId, CodeOk,
      hok, hdup]
  refine ⟨h2, ?_⟩
  rw [h1, h2]
  simp

/-- C8 on an example: with the RGB example movie, code 1106 gives the
duplicate-identifier error naming the unique id and code 1001 gives the
error-code error. -/
theorem CreateMovie_duplicate_witness :
    (exampleClient.CreateMovie amd64 exampleMovie rgbMovie (.decoded ⟨1106⟩) (.decoded ⟨1000⟩)).1
      = .error (.errorf "movie with unique ID %q already exists" [.str "F3712DC0"]) ∧
    (exampleClient.CreateMovie amd64 exampleMovie rgbMovie (.decoded ⟨1001⟩) (.decoded ⟨1000⟩)).1
      = .error (.errorf "error code creating movie entry: %v" [.int 1001]) :=
  ⟨(CreateMovie_duplicate exampleClient amd64 exampleMovie rgbMovie
      [255, 0, 0, 0, 255, 0, 0, 0, 255] (.decoded ⟨1000⟩) (by decide)).1,
   ((CreateMovie_duplicate exampleClient amd64 exampleMovie rgbMovie
      [255, 0, 0, 0, 255, 0, 0, 0, 255] (.decoded ⟨1000⟩) (by decide)).2 1001
      (by decide) (by decide)).1⟩

end Twinkly
